import Mathlib

/-!
# Verification model of the trpg-back real-time chat core

Shallow embedding of the chat layer of the repository:

* `chat.gateway.ts` — connection/disconnection handling, the reconnection
  grace timer (`RECONNECT_GRACE_PERIOD_MS`), and the per-event dispatch
  guards (`handleJoinRoom`, `handleLeaveRoom`, `handleMessage`,
  `handleGetChatLogs`);
* the chat service (`handleSendMessage` pipeline revision and the
  `sendMessage`/`getMessages` service revision of `chat.service.ts`);
* `rate-limit.service.ts` (Redis fixed-window counter) and the
  cache-manager revision of the rate limiter;
* `dice.service.ts` (`rollCommand`).

External collaborators (socket transport, message store, DOMPurify
sanitizer, `Math.random`) are modelled as explicit parameters; all map
state of the gateway is explicit.  Timers are modelled operationally: a
`setTimeout` arms a one-shot timer with an absolute firing instant, a
`clearTimeout` removes it, and the event loop fires every due timer
before it processes the next external event.
-/

namespace TrpgChat

/-- `RECONNECT_GRACE_PERIOD_MS` of `chat.gateway.ts` (15 seconds). -/
def GRACE : Nat := 15000

/-- Entry of the gateway's `clients` map (`socketId -> clientData`). -/
structure ClientData where
  userId : String
  nickname : String
  roomCode : Option String
deriving Repr, DecidableEq

/-- Association-list lookup on the first component (JS `Map.get`). -/
def alookup (k : String) : List (String × α) → Option α
  | [] => none
  | p :: ps => if p.1 = k then some p.2 else alookup k ps

/-- JS `Map.delete`: drop the binding of key `k` (keys are unique). -/
def aerase (k : String) (m : List (String × α)) : List (String × α) :=
  m.filter (fun p => p.1 ≠ k)

/-- JS `Map.set`: bind `k` to `v`, replacing any previous binding.  (A JS
`Map` keeps the overwritten key at its original position; since keys are
unique and nothing in the model observes binding order, remove-then-append
is an equivalent presentation.) -/
def aset (k : String) (v : α) (m : List (String × α)) : List (String × α) :=
  aerase k m ++ [(k, v)]

/-- The key list of an association list. -/
def akeys (m : List (String × α)) : List String :=
  m.map Prod.fst

/-- `findClientEntryByUserId` of `chat.gateway.ts`: first `clients` entry
whose `userId` matches, together with its socket id. -/
def findClientEntryByUserId (m : List (String × ClientData)) (u : String) :
    Option (String × ClientData) :=
  match m with
  | [] => none
  | p :: ps => if p.2.userId = u then some p else findClientEntryByUserId ps u

/-- One armed `setTimeout` from `handleDisconnect`.  `tid` is a unique tag
identifying the disconnect that armed the timer; `fireAt` is the absolute
instant `disconnectTime + RECONNECT_GRACE_PERIOD_MS` at which the callback
runs unless the timer is cleared first. -/
structure GraceTimer where
  tid : Nat
  userId : String
  nickname : String
  roomCode : Option String
  fireAt : Nat
deriving Repr, DecidableEq

/-- Events emitted by the gateway (socket.io `emit` calls), stamped with
the event-loop time at which they were emitted.  A `user_left` produced by
a grace-timer callback carries the tag of the disconnect that armed the
timer (`some tid`); a `user_left` produced by the join/leave handlers
carries no tag. -/
inductive OutEvent where
  | userLeft (time : Nat) (tag : Option Nat) (room : String) (nickname : String)
  | systemOffline (time : Nat) (nickname : String)
  | userReconnected (time : Nat) (room : String) (userId : String) (nickname : String)
  | userJoined (time : Nat) (room : String) (nickname : String)
  | joinedRoom (time : Nat) (sid : String) (room : String)
  | leftRoom (time : Nat) (sid : String) (room : String)
  | systemMsg (time : Nat) (target : Option String) (text : String)
  | errorEvt (time : Nat) (sid : String) (code : String) (reason : String)
deriving Repr, DecidableEq

/-- Gateway state: the `clients` and `disconnectTimeouts` maps of
`chat.gateway.ts`, the set of armed (not yet cleared, not yet fired)
timers, the record of `client.join` calls performed, the emitted events,
and the next fresh timer tag. -/
structure GatewaySt where
  clients : List (String × ClientData)
  timers : List GraceTimer
  timeouts : List (String × Nat)
  joins : List (String × String)
  log : List OutEvent
  nextTid : Nat
deriving Repr, DecidableEq

/-- `clearTimeout` + `disconnectTimeouts.delete` for `userId` `u`, exactly
as both `handleConnection` and `handleDisconnect` perform it: if the map
holds a timer id for `u`, that timer is invalidated and the map entry
removed; otherwise nothing happens. -/
def cancelPending (st : GatewaySt) (u : String) : GatewaySt :=
  match alookup u st.timeouts with
  | some tp =>
      { st with timers := st.timers.filter (fun tm => tm.tid ≠ tp),
                timeouts := aerase u st.timeouts }
  | none => st

/-- The `setTimeout` + `disconnectTimeouts.set` tail of `handleDisconnect`:
arm a fresh one-shot grace timer for the disconnected user, firing at
`t + RECONNECT_GRACE_PERIOD_MS` and remembering the last known room. -/
def armTimer (st : GatewaySt) (t : Nat) (cd : ClientData) : GatewaySt :=
  { st with
    timers := st.timers ++ [⟨st.nextTid, cd.userId, cd.nickname, cd.roomCode, t + GRACE⟩],
    timeouts := aset cd.userId st.nextTid st.timeouts,
    nextTid := st.nextTid + 1 }

/-- `handleConnection` of `chat.gateway.ts` at event-loop time `t` for a
new socket `sid` whose handshake carries `uid`/`nick`.  An empty field is
the `!userId || !nickname` rejection.  If some `clients` entry already has
this `userId`, the connect is treated as a reconnection: the old entry is
deleted, any pending grace timer is cancelled, the new entry carries over
the old `roomCode`, and the room (if any) is re-joined and notified with
`user_reconnected`.  Otherwise the socket is registered fresh.
(`cancelPending` touches only `timers`/`timeouts`, so performing it on the
outer state commutes with the `clients` rewiring of the source order.) -/
def handleConnection (st : GatewaySt) (t : Nat) (sid uid nick : String) :
    GatewaySt :=
  if uid = "" ∨ nick = "" then
    { st with log := st.log ++ [.errorEvt t sid "UNAUTHORIZED" "인증 필요"] }
  else
    match findClientEntryByUserId st.clients uid with
    | some (prevSid, prevData) =>
        match prevData.roomCode with
        | some r =>
            { cancelPending st uid with
              clients := aset sid ⟨uid, nick, some r⟩ (aerase prevSid st.clients),
              joins := st.joins ++ [(sid, r)],
              log := st.log ++
                [.userReconnected t r uid nick, .joinedRoom t sid r] }
        | none =>
            { cancelPending st uid with
              clients := aset sid ⟨uid, nick, none⟩ (aerase prevSid st.clients),
              log := st.log ++ [.systemMsg t (some sid) "서버에 재연결되었습니다."] }
    | none =>
        { st with
          clients := aset sid ⟨uid, nick, none⟩ st.clients,
          log := st.log ++
            [.systemMsg t (some sid) "서버에 연결되었습니다.",
             .systemMsg t none (nick ++ "님이 접속했습니다.")] }

/-- `handleDisconnect` of `chat.gateway.ts` at time `t` for socket `sid`:
the `clients` entry is removed immediately, any previous grace timer for
the same `userId` is cleared, and a fresh one-shot timer is armed. -/
def handleDisconnect (st : GatewaySt) (t : Nat) (sid : String) : GatewaySt :=
  match alookup sid st.clients with
  | none => st
  | some cd =>
      armTimer (cancelPending { st with clients := aerase sid st.clients } cd.userId) t cd

/-- The callback body of the `setTimeout` armed in `handleDisconnect`,
running for timer `tm` at its firing instant.  The timer is consumed;
if no live session for the user exists any more (`findClientEntryByUserId`
returns nothing) the departure is broadcast: `user_left` to the last known
room when there was one, plus the system-wide offline notice.  Either way
the `disconnectTimeouts` entry for the user is deleted. -/
def fireTimer (st : GatewaySt) (tm : GraceTimer) : GatewaySt :=
  match findClientEntryByUserId st.clients tm.userId with
  | none =>
      { st with
        timers := st.timers.filter (fun x => x.tid ≠ tm.tid),
        log := st.log ++
          (match tm.roomCode with
           | some r => [.userLeft tm.fireAt (some tm.tid) r tm.nickname]
           | none => []) ++ [.systemOffline tm.fireAt tm.nickname],
        timeouts := aerase tm.userId st.timeouts }
  | some _ =>
      { st with
        timers := st.timers.filter (fun x => x.tid ≠ tm.tid),
        timeouts := aerase tm.userId st.timeouts }

/-- Event-loop rule: before an external event at time `t` is handled,
every armed timer whose firing instant has been reached runs. -/
def fireDue (st : GatewaySt) (t : Nat) : GatewaySt :=
  (st.timers.filter (fun tm => tm.fireAt ≤ t)).foldl fireTimer st

/-- End of a run: the event loop idles and every remaining armed timer
eventually fires. -/
def flushTimers (st : GatewaySt) : GatewaySt :=
  st.timers.foldl fireTimer st

/-- `^[a-zA-Z0-9]$` on a single character (`JoinRoomDto` room-code
pattern). -/
def isAlnum (c : Char) : Bool :=
  c.isAlpha || c.isDigit

/-- The `@Matches(/^[a-zA-Z0-9]{4,20}$/)` validation of `JoinRoomDto` and
`SendMessageDto`. -/
def roomCodeValid (s : String) : Bool :=
  decide (4 ≤ s.length) && decide (s.length ≤ 20) && s.toList.all isAlnum

/-- `handleJoinRoom` (gateway guard + `ChatService.handleJoinRoom` of the
pipeline revision) at time `t`: unauthenticated sockets get a single
`UNAUTHORIZED` error; an invalid room code gets `VALIDATION_ERROR`;
otherwise the old room (if any) is left with an (untagged) `user_left`
notice, the new room is joined, `roomCode` is updated, and
`joined_room`/`user_joined` are emitted. -/
def handleJoinRoom (st : GatewaySt) (t : Nat) (sid room : String) : GatewaySt :=
  match alookup sid st.clients with
  | none =>
      { st with log := st.log ++ [.errorEvt t sid "UNAUTHORIZED" "인증 필요"] }
  | some cd =>
      if roomCodeValid room = false then
        { st with log := st.log ++ [.errorEvt t sid "VALIDATION_ERROR" "입력값 검증 실패"] }
      else
        { st with
          clients := aset sid { cd with roomCode := some room } st.clients,
          joins := st.joins ++ [(sid, room)],
          log := st.log ++
            (match cd.roomCode with
             | some old => [OutEvent.userLeft t none old cd.nickname]
             | none => []) ++
            [.joinedRoom t sid room, .userJoined t room cd.nickname] }

/-- `handleLeaveRoom` (gateway guard + `ChatService.handleLeaveRoom`):
a socket with no session or no current room gets a single `NOT_IN_ROOM`
error; otherwise the room is left, `roomCode` cleared, and
`user_left`/`left_room` emitted. -/
def handleLeaveRoom (st : GatewaySt) (t : Nat) (sid : String) : GatewaySt :=
  match alookup sid st.clients with
  | none =>
      { st with log := st.log ++
          [.errorEvt t sid "NOT_IN_ROOM" "현재 방에 참여하지 않았습니다"] }
  | some cd =>
      match cd.roomCode with
      | none =>
          { st with log := st.log ++
              [.errorEvt t sid "NOT_IN_ROOM" "현재 방에 참여하지 않았습니다"] }
      | some room =>
          { st with
            clients := aset sid { cd with roomCode := none } st.clients,
            log := st.log ++
              [.userLeft t none room cd.nickname, .leftRoom t sid room] }

/-- External events fed to the gateway, stamped with arrival time. -/
inductive InEvent where
  | connect (time : Nat) (sid uid nick : String)
  | disconnect (time : Nat) (sid : String)
  | joinRoom (time : Nat) (sid room : String)
  | leaveRoom (time : Nat) (sid : String)
deriving Repr, DecidableEq

/-- Arrival time of an external event. -/
def InEvent.time : InEvent → Nat
  | .connect t _ _ _ => t
  | .disconnect t _ => t
  | .joinRoom t _ _ => t
  | .leaveRoom t _ => t

/-- Process one external event: fire every due timer, then dispatch. -/
def stepEvent (st : GatewaySt) : InEvent → GatewaySt
  | .connect t sid uid nick => handleConnection (fireDue st t) t sid uid nick
  | .disconnect t sid => handleDisconnect (fireDue st t) t sid
  | .joinRoom t sid room => handleJoinRoom (fireDue st t) t sid room
  | .leaveRoom t sid => handleLeaveRoom (fireDue st t) t sid

/-- Process a list of external events in order. -/
def processEvents (st : GatewaySt) : List InEvent → GatewaySt
  | [] => st
  | e :: rest => processEvents (stepEvent st e) rest

/-- The gateway's initial state: empty maps, no timers, nothing emitted. -/
def initSt : GatewaySt :=
  ⟨[], [], [], [], [], 0⟩

/-- A complete run: process the schedule, then let every surviving grace
timer fire. -/
def runGateway (evs : List InEvent) : GatewaySt :=
  flushTimers (processEvents initSt evs)

/-- Recognizer for `user_joined` notices. -/
def OutEvent.isUserJoined : OutEvent → Bool
  | .userJoined _ _ _ => true
  | _ => false

/-- Recognizer for `user_left` notices. -/
def OutEvent.isUserLeft : OutEvent → Bool
  | .userLeft _ _ _ _ => true
  | _ => false

/-- The multiset of `userId`s of the live sessions. -/
def uids (m : List (String × ClientData)) : List String :=
  m.map (fun p => p.2.userId)

/-- Uniqueness invariant of the `clients` map: socket ids are pairwise
distinct and the `userId`s of live sessions are pairwise distinct. -/
def ClientsUnique (m : List (String × ClientData)) : Prop :=
  (akeys m).Nodup ∧ (uids m).Nodup

instance : DecidablePred ClientsUnique := fun _ =>
  inferInstanceAs (Decidable (_ ∧ _))

/-! ## Dice service (`dice.service.ts`) -/

/-- Result of `rollCommand`: individual die results, total, and the
human-readable breakdown string. -/
structure DiceResult where
  rolls : List Nat
  total : Int
  detail : String
deriving Repr, DecidableEq

instance [DecidableEq ε] [DecidableEq α] : DecidableEq (Except ε α) := fun a b =>
  match a, b with
  | .ok x, .ok y =>
      if h : x = y then .isTrue (by rw [h])
      else .isFalse (by intro he; cases he; exact h rfl)
  | .error x, .error y =>
      if h : x = y then .isTrue (by rw [h])
      else .isFalse (by intro he; cases he; exact h rfl)
  | .ok _, .error _ => .isFalse (by intro he; cases he)
  | .error _, .ok _ => .isFalse (by intro he; cases he)

/-- JS `String.prototype.trim()`: strip leading and trailing whitespace.
(Written on the character list so that it evaluates by kernel reduction;
`String.trim` of the Lean core library is extensionally the same.) -/
def jsTrim (s : String) : String :=
  String.mk (((s.toList.dropWhile Char.isWhitespace).reverse.dropWhile
    Char.isWhitespace).reverse)

/-- `cleanMessage.startsWith('/roll')`. -/
def startsWithRoll (s : String) : Bool :=
  match s.toList with
  | '/' :: 'r' :: 'o' :: 'l' :: 'l' :: _ => true
  | _ => false

/-- Digit run to a number (`parseInt` on a digit capture group). -/
def digitsToNat (cs : List Char) : Nat :=
  cs.foldl (fun acc c => acc * 10 + (c.toNat - '0'.toNat)) 0

/-- The regex `^(\d+)d(\d+)([+-]\d+)?$` of `rollCommand`: the three capture
groups (count, sides, signed modifier, modifier defaulting to 0), or
`none` when the command does not match. -/
def parseDiceCommand (s : String) : Option (Nat × Nat × Int) :=
  match (s.toList.takeWhile Char.isDigit, s.toList.dropWhile Char.isDigit) with
  | ([], _) => none
  | (d1, 'd' :: rest2) =>
      match (rest2.takeWhile Char.isDigit, rest2.dropWhile Char.isDigit) with
      | ([], _) => none
      | (d2, []) => some (digitsToNat d1, digitsToNat d2, 0)
      | (d2, sign :: rest4) =>
          if sign = '+' ∨ sign = '-' then
            match (rest4.takeWhile Char.isDigit, rest4.dropWhile Char.isDigit) with
            | ([], _) => none
            | (d3, []) =>
                some (digitsToNat d1, digitsToNat d2,
                  if sign = '+' then (digitsToNat d3 : Int) else -(digitsToNat d3 : Int))
            | (_, _ :: _) => none
          else none
  | (_, _) => none

/-- `rollDice` of `dice.service.ts`: `Math.floor(Math.random() * sides) + 1`.
The random draw is the `i`-th value of the ambient random stream `rng`,
reduced into `[0, sides)` exactly as `floor(random * sides)` is. -/
def rollDice (rng : Nat → Nat) (i : Nat) (sides : Nat) : Nat :=
  rng i % sides + 1

/-- `rolls.join(' + ')`. -/
def joinPlus : List Nat → String
  | [] => ""
  | [x] => toString x
  | x :: xs => toString x ++ " + " ++ joinPlus xs

/-- The modifier suffix of the `detail` string of `rollCommand`. -/
def modifierDetail (modifier : Int) : String :=
  if modifier ≠ 0 then
    if modifier > 0 then " + " ++ toString modifier
    else " - " ++ toString modifier.natAbs
  else ""

/-- `rollCommand` of `dice.service.ts`: parse the command, reject a
non-match or `count < 1` / `sides < 2`, roll `count` dice and sum them
with the modifier.  (The history side channel is not modelled; the
returned value does not depend on it.) -/
def rollCommand (rng : Nat → Nat) (command : String) : Except String DiceResult :=
  match parseDiceCommand command with
  | none => .error "유효하지 않은 주사위 명령어입니다. 예: \"2d6+3\""
  | some (count, sides, modifier) =>
      if count < 1 ∨ sides < 2 then
        .error "주사위 수량은 1 이상, 면수는 2 이상이어야 합니다."
      else
        .ok ⟨(List.range count).map (fun i => rollDice rng i sides),
             (((List.range count).map (fun i => rollDice rng i sides)).foldl
               (fun sum v => sum + (v : Int)) 0) + modifier,
             joinPlus ((List.range count).map (fun i => rollDice rng i sides)) ++
               modifierDetail modifier⟩

/-! ## Rate limiters (`rate-limit.service.ts` and the cache-manager revision) -/

namespace RedisRateLimit

/-- `isRateLimited` of `rate-limit.service.ts`, called at time `now`.
The whole service state is the optional Redis client (`none` when
`USE_REDIS !== 'true'`) holding the one key `chat:{userId}` relevant to the
call: `some (count, expiresAt)`, or `none` once absent or expired.  The
body is `INCR` (which revives an absent/expired key at 1), `EXPIRE ttl`
when the new count is 1, and the verdict `count > limit` with
`limit = 10`, `ttl = 60`. -/
def isRateLimited (svc : Option (Option (Nat × Nat))) (now : Nat) :
    Bool × Option (Option (Nat × Nat)) :=
  match svc with
  | none => (false, none)
  | some key =>
      match key with
      | some (c, exp) =>
          if exp ≤ now then (decide (1 > 10), some (some (1, now + 60)))
          else (decide (c + 1 > 10), some (some (c + 1, exp)))
      | none => (decide (1 > 10), some (some (1, now + 60)))

end RedisRateLimit

namespace CacheRateLimit

/-- `isRateLimited` of the cache-manager revision of `RateLimitService`.
The cache entry for `chat:{userId}` is `some (count, ttlArg)` where
`ttlArg` records the ttl argument passed to the last `cache.set`.  The
body: read the count (absent reads as 0), return `true` untouched once
`count >= limit` (limit 10), otherwise store `1` with ttl 60 on a fresh
window or `count + 1` with ttl 0 on a running one. -/
def isRateLimited (entry : Option (Nat × Nat)) : Bool × Option (Nat × Nat) :=
  match entry with
  | none => (false, some (1, 60))
  | some (c, ttlArg) =>
      if c ≥ 10 then (true, some (c, ttlArg))
      else if c = 0 then (false, some (1, 60))
      else (false, some (c + 1, 0))

end CacheRateLimit

/-! ## `getMessages` of `chat.service.ts` -/

/-- A JS number argument as far as `getMessages` observes it: `NaN` or an
integer value (no claim involves a fractional limit). -/
inductive JSNum where
  | nan
  | int (n : Int)
deriving Repr, DecidableEq

/-- `Number(limit) || DEFAULT_MESSAGE_LIMIT`: `NaN` and `0` are falsy and
fall back to the default 50. -/
def numberOrDefault : JSNum → Int
  | .nan => 50
  | .int n => if n = 0 then 50 else n

/-- `Math.min(Math.max(Number(limit) || DEFAULT_MESSAGE_LIMIT, 1),
MAX_MESSAGE_LIMIT)` of `getMessages`; an absent argument takes the default
parameter value `DEFAULT_MESSAGE_LIMIT = 50`. -/
def safeLimit (limit : Option JSNum) : Int :=
  min (max (numberOrDefault (limit.getD (.int 50))) 1) 200

/-- A persisted `Chatmessage` row. -/
structure Chatmessage where
  id : Nat
  roomCode : String
  senderId : String
  nickname : String
  message : String
  timestamp : Nat
deriving Repr, DecidableEq

/-- `getMessages` of `chat.service.ts`.  `tableDesc` is the message table
in descending `timestamp` order (what the `orderBy DESC` query scans); the
query keeps the rows of the requested room, `take`s `safeLimit` of them,
and the service returns them reversed (oldest first).  An empty `roomCode`
is the `!roomCode` rejection. -/
def getMessages (roomCode : String) (limit : Option JSNum)
    (tableDesc : List Chatmessage) : Except String (List Chatmessage) :=
  if roomCode = "" then .error "roomCode가 필요합니다"
  else
    .ok (((tableDesc.filter (fun m => m.roomCode = roomCode)).take
      (safeLimit limit).toNat).reverse)

/-! ## Gateway dispatch guards (`@SubscribeMessage` handlers, first
revision of `chat.gateway.ts`) -/

/-- The service call a gateway handler delegates to once its guards pass
(`C8` concerns only the guard behaviour, so arguments beyond the
originating socket are kept minimal). -/
inductive Delegated where
  | joinRoom (sid room : String)
  | leaveRoom (sid : String)
  | sendMessage (sid : String)
  | getChatLogs (sid room : String)
deriving Repr, DecidableEq

/-- `handleJoinRoom` guard: an unknown socket gets one `UNAUTHORIZED`
error; a bad room code one `VALIDATION_ERROR`; otherwise delegate.  Each
emitted triple is `(targetSocket, code, reason)`. -/
def dispatchJoinRoom (clients : List (String × ClientData)) (sid room : String) :
    List (String × String × String) × Option Delegated :=
  match alookup sid clients with
  | none => ([(sid, "UNAUTHORIZED", "인증 필요")], none)
  | some _ =>
      if roomCodeValid room = false then
        ([(sid, "VALIDATION_ERROR", "입력값 검증 실패")], none)
      else ([], some (.joinRoom sid room))

/-- `handleLeaveRoom` guard: a socket with no session *or* no current room
gets one `NOT_IN_ROOM` error; otherwise delegate. -/
def dispatchLeaveRoom (clients : List (String × ClientData)) (sid : String) :
    List (String × String × String) × Option Delegated :=
  match alookup sid clients with
  | none => ([(sid, "NOT_IN_ROOM", "현재 방에 참여하지 않았습니다")], none)
  | some cd =>
      match cd.roomCode with
      | none => ([(sid, "NOT_IN_ROOM", "현재 방에 참여하지 않았습니다")], none)
      | some _ => ([], some (.leaveRoom sid))

/-- `handleMessage` guard: an unknown socket gets one `UNAUTHORIZED`
error; otherwise delegate. -/
def dispatchSendMessage (clients : List (String × ClientData)) (sid : String) :
    List (String × String × String) × Option Delegated :=
  match alookup sid clients with
  | none => ([(sid, "UNAUTHORIZED", "인증 필요")], none)
  | some _ => ([], some (.sendMessage sid))

/-- `handleGetChatLogs` guard: `!clientData || clientData.roomCode !==
roomCode` gets one `INVALID_ROOM` error; otherwise delegate. -/
def dispatchGetChatLogs (clients : List (String × ClientData)) (sid room : String) :
    List (String × String × String) × Option Delegated :=
  match alookup sid clients with
  | none => ([(sid, "INVALID_ROOM", "해당 방에 참여하지 않았습니다")], none)
  | some cd =>
      if cd.roomCode = some room then ([], some (.getChatLogs sid room))
      else ([(sid, "INVALID_ROOM", "해당 방에 참여하지 않았습니다")], none)

/-! ## Message pipeline (`handleSendMessage`, pipeline revision) and the
`sendMessage` service revision of `chat.service.ts` -/

/-- A message payload as built by `handleSendMessage` (pipeline revision). -/
structure MsgPayload where
  senderId : String
  nickname : String
  message : String
  roomCode : String
  timestamp : Nat
deriving Repr, DecidableEq

/-- A row returned by `chatMessageRepo.save` in the service revision. -/
structure SavedMessage where
  id : Nat
  senderId : String
  nickname : String
  message : String
  roomCode : String
  timestamp : Nat
deriving Repr, DecidableEq

/-- Socket emissions of the send-message flow: a unicast `error` event to
the sender, a room broadcast of a pipeline payload, or a room broadcast of
a saved row (service revision). -/
inductive PipeEvent where
  | errorTo (code reason : String)
  | broadcast (room : String) (msg : MsgPayload)
  | broadcastSaved (room : String) (msg : SavedMessage)
deriving Repr, DecidableEq

/-- Recognizer for room broadcasts. -/
def PipeEvent.isBroadcast : PipeEvent → Bool
  | .broadcast _ _ => true
  | .broadcastSaved _ _ => true
  | _ => false

/-- Recognizer for unicast `SERVER_ERROR` events. -/
def PipeEvent.isServerError : PipeEvent → Bool
  | .errorTo "SERVER_ERROR" _ => true
  | _ => false

/-- Result of one pipeline invocation: events emitted (in order), the
message store afterwards, and the payloads handed to the store
(`saveMessage` calls). -/
structure PipeResult where
  events : List PipeEvent
  store : List MsgPayload
  saveCalls : List MsgPayload
deriving Repr, DecidableEq

/-- `cleanMessage.replace(/^\/roll\s+/, '')`: when the text starts with
`/roll` followed by at least one whitespace, drop `/roll` and the whole
whitespace run (`\s+` is greedy); otherwise leave the text unchanged. -/
def dropRollCommand (cs : List Char) : List Char :=
  match cs with
  | '/' :: 'r' :: 'o' :: 'l' :: 'l' :: rest =>
      match rest with
      | c :: _ =>
          if c.isWhitespace then rest.dropWhile Char.isWhitespace
          else cs
      | [] => cs
  | _ => cs

/-- The dice command extracted by the `/roll` branch:
`cleanMessage.replace(/^\/roll\s+/, '').trim()`. -/
def diceCommandOf (clean : String) : String :=
  jsTrim (String.mk (dropRollCommand clean.toList))

/-- The `SendMessageDto` validation (revision with `@Matches` and
`@Length(1, 500)`): room code 4–20 alphanumerics, message a non-empty
string of at most 500 characters. -/
def sendMessageDtoValid (dtoRoom dtoMsg : String) : Bool :=
  roomCodeValid dtoRoom && decide (1 ≤ dtoMsg.length) && decide (dtoMsg.length ≤ 500)

/-- `handleSendMessage` of the pipeline revision of the chat service, for
a sender whose session is `cd`.  External collaborators are parameters:
`limited` is the rate-limiter verdict for this user, `san` is
`DOMPurify.sanitize` with empty tag/attribute allowlists, `rng` the random
stream of the dice service and `saveOk` whether the message-store `save`
succeeds.  `store` is the message store before the call and `now` the
clock.  The pipeline stops at its first failing step, emitting exactly the
source's error event; a successful `/roll` broadcasts the synthesized
system message without any `saveMessage` call; a plain message is saved
and broadcast only after the save succeeded. -/
def handleSendMessage (cd : ClientData) (dtoRoom dtoMsg : String)
    (limited : Bool) (san : String → String) (rng : Nat → Nat)
    (saveOk : Bool) (now : Nat) (store : List MsgPayload) : PipeResult :=
  if sendMessageDtoValid dtoRoom dtoMsg = false then
    ⟨[.errorTo "VALIDATION_ERROR" "입력값 검증 실패"], store, []⟩
  else if cd.roomCode ≠ some dtoRoom then
    ⟨[.errorTo "INVALID_ROOM" "해당 방에 참여하지 않았습니다"], store, []⟩
  else if limited then
    ⟨[.errorTo "RATE_LIMITED" "메시지 전송 제한 초과. 1분 후 다시 시도해 주세요."], store, []⟩
  else if jsTrim dtoMsg = "" then
    ⟨[.errorTo "EMPTY_MESSAGE" "메시지 내용이 비어 있습니다"], store, []⟩
  else if 200 < (san (jsTrim dtoMsg)).length then
    ⟨[.errorTo "MESSAGE_TOO_LONG" "메시지는 최대 200자까지 가능합니다"], store, []⟩
  else if startsWithRoll (san (jsTrim dtoMsg)) then
    match rollCommand rng (diceCommandOf (san (jsTrim dtoMsg))) with
    | .error _ => ⟨[.errorTo "SERVER_ERROR" "메시지 처리에 실패했습니다"], store, []⟩
    | .ok result =>
        ⟨[.broadcast dtoRoom ⟨"System", "주사위",
            cd.nickname ++ "의 주사위 결과: " ++ toString result.total ++
              " (" ++ result.detail ++ ")", dtoRoom, now⟩], store, []⟩
  else
    if saveOk then
      ⟨[.broadcast dtoRoom ⟨cd.userId, cd.nickname, san (jsTrim dtoMsg), dtoRoom, now⟩],
       store ++ [⟨cd.userId, cd.nickname, san (jsTrim dtoMsg), dtoRoom, now⟩],
       [⟨cd.userId, cd.nickname, san (jsTrim dtoMsg), dtoRoom, now⟩]⟩
    else
      ⟨[.errorTo "SERVER_ERROR" "메시지 처리에 실패했습니다"], store,
       [⟨cd.userId, cd.nickname, san (jsTrim dtoMsg), dtoRoom, now⟩]⟩

/-- `ChatService.saveMessage` of the service revision: `repo.create` +
`repo.save`, which assigns the next id and the `now` timestamp, or throws
(`InternalServerErrorException`) when the store fails.  Returns the save
result together with the store afterwards. -/
def saveMessageV2 (saveOk : Bool) (now : Nat) (store : List SavedMessage)
    (senderId nickname message roomCode : String) :
    Except String SavedMessage × List SavedMessage :=
  if saveOk then
    (.ok ⟨store.length + 1, senderId, nickname, message, roomCode, now⟩,
     store ++ [⟨store.length + 1, senderId, nickname, message, roomCode, now⟩])
  else (.error "메시지 저장에 실패했습니다", store)

/-- `ChatService.sendMessage` of `chat.service.ts` (service revision),
called by the gateway as `sendMessage(dto, userId, nickname, dto.roomCode)`.
Trims, sanitizes, length-checks; a `/roll` command is evaluated and the
synthesized system message is *saved* like any message; otherwise the
clean user message is saved.  Every failure is a thrown exception,
returned here as `.error`. -/
def sendMessageV2 (userId nickname roomCode dtoRoom dtoMsg : String)
    (san : String → String) (rng : Nat → Nat) (saveOk : Bool) (now : Nat)
    (store : List SavedMessage) :
    Except String SavedMessage × List SavedMessage :=
  if jsTrim dtoMsg = "" then (.error "메시지 내용이 비어 있습니다", store)
  else if 200 < (san (jsTrim dtoMsg)).length then
    (.error "메시지는 최대 200자까지 가능합니다", store)
  else if startsWithRoll (san (jsTrim dtoMsg)) then
    match rollCommand rng (diceCommandOf (san (jsTrim dtoMsg))) with
    | .error e => (.error e, store)
    | .ok result =>
        saveMessageV2 saveOk now store "System" "주사위"
          (nickname ++ "의 주사위 결과: " ++ toString result.total ++
            " (" ++ result.detail ++ ")") roomCode
  else
    saveMessageV2 saveOk now store userId nickname (san (jsTrim dtoMsg)) dtoRoom

/-- `handleMessage` of the second gateway revision: guards
(`UNAUTHORIZED`, `INVALID_ROOM`), then `ChatService.sendMessage`; on
resolution the saved row is broadcast to the room, on a thrown error a
single `SEND_MESSAGE_FAILED` error event carries the exception message. -/
def handleMessageV2 (clients : List (String × ClientData)) (sid : String)
    (dtoRoom dtoMsg : String) (san : String → String) (rng : Nat → Nat)
    (saveOk : Bool) (now : Nat) (store : List SavedMessage) :
    List PipeEvent × List SavedMessage :=
  match alookup sid clients with
  | none => ([.errorTo "UNAUTHORIZED" "인증 필요"], store)
  | some cd =>
      if cd.roomCode ≠ some dtoRoom then
        ([.errorTo "INVALID_ROOM" "해당 방에 참여하지 않았습니다"], store)
      else
        match sendMessageV2 cd.userId cd.nickname dtoRoom dtoRoom dtoMsg san rng saveOk now store with
        | (.ok saved, store2) => ([.broadcastSaved dtoRoom saved], store2)
        | (.error e, store2) => ([.errorTo "SEND_MESSAGE_FAILED" e], store2)

/-! ## Infrastructure for the grace-period claim -/

/-- Tags of the timer-produced `user_left` events of a log. -/
def leftTags (l : List OutEvent) : List Nat :=
  l.filterMap (fun e =>
    match e with
    | .userLeft _ (some g) _ _ => some g
    | _ => none)

/-- The `user_left` events of the log carrying timer tag `d`. -/
def leftEventsTagged (d : Nat) (l : List OutEvent) : List OutEvent :=
  l.filter (fun e =>
    match e with
    | .userLeft _ (some g) _ _ => g = d
    | _ => false)

/-- Socket ids of the connect events of a schedule. -/
def connectSids (evs : List InEvent) : List String :=
  evs.filterMap (fun e =>
    match e with
    | .connect _ sid _ _ => some sid
    | _ => none)

/-- `e` is a connect handshake for user `u` that passes the
`!userId || !nickname` guard. -/
def validConnectFor (u : String) : InEvent → Bool
  | .connect _ _ uid nick => uid = u && uid ≠ "" && nick ≠ ""
  | _ => false

/-- Master invariant of reachable gateway states: the `clients` map is
key- and user-unique, armed timers have pairwise-distinct tags below
`nextTid`, every timer-produced `user_left` tag in the log is below
`nextTid`, the `disconnectTimeouts` map points exactly at the armed
timers, and the tag of an armed (still pending) timer never occurs in the
log yet. -/
structure Inv (st : GatewaySt) : Prop where
  keysND : (akeys st.clients).Nodup
  uidsND : (uids st.clients).Nodup
  tidsND : (st.timers.map GraceTimer.tid).Nodup
  tidsLt : ∀ tm ∈ st.timers, tm.tid < st.nextTid
  tagsLt : ∀ g ∈ leftTags st.log, g < st.nextTid
  sync : ∀ u tid, alookup u st.timeouts = some tid ↔
    ∃ tm ∈ st.timers, tm.userId = u ∧ tm.tid = tid
  freshTag : ∀ tm ∈ st.timers, tm.tid ∉ leftTags st.log

/-- Phase predicate of the grace-period argument: the timer `tm0` armed by
the disconnect under scrutiny is still pending and its user has no live
session. -/
def PhaseArmed (tm0 : GraceTimer) (st : GatewaySt) : Prop :=
  Inv st ∧ tm0 ∈ st.timers ∧ findClientEntryByUserId st.clients tm0.userId = none

/-- Phase predicate after the user reconnected: the disconnect's tag `d`
has produced no `user_left`, any armed timer carrying `d` still belongs to
user `u`, and while such a timer is armed the user has a live session (so
the callback's re-check will stay silent). -/
def PhaseReconnected (d : Nat) (u : String) (st : GatewaySt) : Prop :=
  Inv st ∧ d < st.nextTid ∧ d ∉ leftTags st.log ∧
  (∀ tm ∈ st.timers, tm.tid = d → tm.userId = u) ∧
  ((∃ tm ∈ st.timers, tm.tid = d) → (findClientEntryByUserId st.clients u).isSome)

/-- Phase predicate after the grace timer fired as a genuine departure:
the timer is gone, its tag can never be reused, and the log carries
exactly the departure events of the disconnect — one `user_left` to the
last known room when there was one, none otherwise. -/
def PhaseFired (tm0 : GraceTimer) (st : GatewaySt) : Prop :=
  Inv st ∧ (∀ tm ∈ st.timers, tm.tid ≠ tm0.tid) ∧ tm0.tid < st.nextTid ∧
  leftEventsTagged tm0.tid st.log =
    (match tm0.roomCode with
     | some r => [.userLeft tm0.fireAt (some tm0.tid) r tm0.nickname]
     | none => [])

theorem alookup_mem {m : List (String × α)} {k : String} {v : α}
    (h : alookup k m = some v) : (k, v) ∈ m := by
  induction m with
  | nil => simp [alookup] at h
  | cons p ps ih =>
      by_cases hk : p.1 = k
      · simp only [alookup, if_pos hk] at h
        obtain ⟨p1, p2⟩ := p
        cases h
        cases hk
        exact List.mem_cons_self _ _
      · simp only [alookup, if_neg hk] at h
        exact List.mem_cons_of_mem _ (ih h)

theorem mem_aerase {m : List (String × α)} {k : String} {p : String × α} :
    p ∈ aerase k m ↔ p ∈ m ∧ p.1 ≠ k := by
  simp [aerase, List.mem_filter]

theorem alookup_aerase_self (k : String) (m : List (String × α)) :
    alookup k (aerase k m) = none := by
  induction m with
  | nil => rfl
  | cons p ps ih =>
      by_cases hk : p.1 = k
      · simpa [aerase, List.filter_cons, hk] using ih
      · simpa [aerase, List.filter_cons, alookup, hk] using ih

theorem alookup_aerase_ne {k k' : String} (h : k' ≠ k) (m : List (String × α)) :
    alookup k' (aerase k m) = alookup k' m := by
  have hne : ¬ k = k' := fun he => h he.symm
  induction m with
  | nil => rfl
  | cons p ps ih =>
      by_cases hk : p.1 = k
      · simpa [aerase, List.filter_cons, alookup, hk, hne] using ih
      · by_cases hk' : p.1 = k'
        · simp [aerase, List.filter_cons, alookup, hk, hk', h]
        · simpa [aerase, List.filter_cons, alookup, hk, hk'] using ih

theorem alookup_append (k : String) (m1 m2 : List (String × α)) :
    alookup k (m1 ++ m2) =
      match alookup k m1 with
      | some v => some v
      | none => alookup k m2 := by
  induction m1 with
  | nil => simp [alookup]
  | cons p ps ih =>
      by_cases hk : p.1 = k <;> simp [alookup, hk, ih]

theorem alookup_aset_self (k : String) (v : α) (m : List (String × α)) :
    alookup k (aset k v m) = some v := by
  rw [aset, alookup_append, alookup_aerase_self]
  simp [alookup]

theorem alookup_aset_ne {k k' : String} (h : k' ≠ k) (v : α) (m : List (String × α)) :
    alookup k' (aset k v m) = alookup k' m := by
  have hne : ¬ k = k' := fun he => h he.symm
  rw [aset, alookup_append, alookup_aerase_ne h]
  rcases alookup k' m with _ | w
  · simp [alookup, hne]
  · rfl

theorem findClientEntryByUserId_eq_none {m : List (String × ClientData)} {u : String} :
    findClientEntryByUserId m u = none ↔ ∀ p ∈ m, p.2.userId ≠ u := by
  induction m with
  | nil => simp [findClientEntryByUserId]
  | cons p ps ih =>
      by_cases hp : p.2.userId = u
      · simp [findClientEntryByUserId, hp]
      · simp [findClientEntryByUserId, hp, ih]

theorem findClientEntryByUserId_some {m : List (String × ClientData)}
    {u : String} {q : String × ClientData}
    (h : findClientEntryByUserId m u = some q) : q ∈ m ∧ q.2.userId = u := by
  induction m with
  | nil => simp [findClientEntryByUserId] at h
  | cons p ps ih =>
      by_cases hp : p.2.userId = u
      · simp only [findClientEntryByUserId, if_pos hp] at h
        cases h
        exact ⟨List.mem_cons_self _ _, hp⟩
      · simp only [findClientEntryByUserId, if_neg hp] at h
        exact ⟨List.mem_cons_of_mem _ (ih h).1, (ih h).2⟩

theorem akeys_sublist_aerase (k : String) (m : List (String × α)) :
    List.Sublist (akeys (aerase k m)) (akeys m) :=
  (List.filter_sublist m).map Prod.fst

theorem uids_sublist_aerase (k : String) (m : List (String × ClientData)) :
    List.Sublist (uids (aerase k m)) (uids m) :=
  (List.filter_sublist m).map _

theorem clientsUnique_aerase (k : String) {m : List (String × ClientData)}
    (h : ClientsUnique m) : ClientsUnique (aerase k m) :=
  ⟨h.1.sublist (akeys_sublist_aerase k m), h.2.sublist (uids_sublist_aerase k m)⟩

theorem clientsUnique_aset {m : List (String × ClientData)} {k : String}
    {v : ClientData} (h : ClientsUnique m)
    (hu : ∀ p ∈ m, p.1 ≠ k → p.2.userId ≠ v.userId) :
    ClientsUnique (aset k v m) := by
  have he := clientsUnique_aerase k h
  constructor
  · unfold aset akeys
    rw [List.map_append]
    refine List.Nodup.append he.1 (by simp) ?_
    intro a ha hb
    simp only [List.map_cons, List.map_nil, List.mem_singleton] at hb
    subst hb
    rcases List.mem_map.mp ha with ⟨p, hp, hpk⟩
    exact (mem_aerase.mp hp).2 hpk
  · unfold aset uids
    rw [List.map_append]
    refine List.Nodup.append he.2 (by simp) ?_
    intro a ha hb
    simp only [List.map_cons, List.map_nil, List.mem_singleton] at hb
    subst hb
    rcases List.mem_map.mp ha with ⟨p, hp, hpu⟩
    exact hu p (mem_aerase.mp hp).1 (mem_aerase.mp hp).2 hpu

/-- In a `userId`-unique map, two entries with the same `userId` coincide. -/
theorem eq_of_same_uid {m : List (String × ClientData)}
    (hnd : (uids m).Nodup) {p q : String × ClientData}
    (hp : p ∈ m) (hq : q ∈ m) (hpq : p.2.userId = q.2.userId) : p = q :=
  List.inj_on_of_nodup_map hnd hp hq hpq

theorem cancelPending_clients (st : GatewaySt) (u : String) :
    (cancelPending st u).clients = st.clients := by
  rcases h : alookup u st.timeouts with _ | tp <;> simp [cancelPending, h]

theorem armTimer_clients (st : GatewaySt) (t : Nat) (cd : ClientData) :
    (armTimer st t cd).clients = st.clients := rfl

theorem handleConnection_clients (st : GatewaySt) (t : Nat) (sid uid nick : String) :
    (handleConnection st t sid uid nick).clients =
      if uid = "" ∨ nick = "" then st.clients
      else
        match findClientEntryByUserId st.clients uid with
        | some q => aset sid ⟨uid, nick, q.2.roomCode⟩ (aerase q.1 st.clients)
        | none => aset sid ⟨uid, nick, none⟩ st.clients := by
  by_cases hauth : uid = "" ∨ nick = ""
  · simp [handleConnection, hauth]
  · rcases hf : findClientEntryByUserId st.clients uid with _ | ⟨prevSid, prevData⟩
    · simp [handleConnection, hauth, hf]
    · rcases hr : prevData.roomCode with _ | r <;>
        simp [handleConnection, hauth, hf, hr]

theorem handleDisconnect_clients (st : GatewaySt) (t : Nat) (sid : String) :
    (handleDisconnect st t sid).clients =
      match alookup sid st.clients with
      | none => st.clients
      | some _ => aerase sid st.clients := by
  rcases hl : alookup sid st.clients with _ | cd
  · simp [handleDisconnect, hl]
  · simp [handleDisconnect, hl, armTimer_clients, cancelPending_clients]

theorem clientsUnique_handleConnection {st : GatewaySt} (t : Nat)
    (sid uid nick : String) (h : ClientsUnique st.clients) :
    ClientsUnique (handleConnection st t sid uid nick).clients := by
  rw [handleConnection_clients]
  by_cases hauth : uid = "" ∨ nick = ""
  · simpa [hauth] using h
  · simp only [if_neg hauth]
    rcases hf : findClientEntryByUserId st.clients uid with _ | q
    · have hnone := findClientEntryByUserId_eq_none.mp hf
      exact clientsUnique_aset h (fun p hp _ => hnone p hp)
    · rcases findClientEntryByUserId_some hf with ⟨hqm, hqu⟩
      refine clientsUnique_aset (clientsUnique_aerase _ h) ?_
      intro p hp _ hpu
      have hpq : p = q := eq_of_same_uid h.2 (mem_aerase.mp hp).1 hqm (by rw [hpu, hqu])
      exact (mem_aerase.mp hp).2 (by rw [hpq])

theorem clientsUnique_handleDisconnect {st : GatewaySt} (t : Nat) (sid : String)
    (h : ClientsUnique st.clients) :
    ClientsUnique (handleDisconnect st t sid).clients := by
  rw [handleDisconnect_clients]
  rcases alookup sid st.clients with _ | cd
  · exact h
  · exact clientsUnique_aerase _ h

theorem clientsUnique_roomUpdate {st : GatewaySt} {sid : String} {cd : ClientData}
    (h : ClientsUnique st.clients) (hl : alookup sid st.clients = some cd)
    (rc : Option String) :
    ClientsUnique (aset sid { cd with roomCode := rc } st.clients) := by
  refine clientsUnique_aset h ?_
  intro p hp hpk hpu
  have : p = (sid, cd) := eq_of_same_uid h.2 hp (alookup_mem hl) hpu
  exact hpk (by rw [this])

theorem clientsUnique_handleJoinRoom {st : GatewaySt} (t : Nat) (sid room : String)
    (h : ClientsUnique st.clients) :
    ClientsUnique (handleJoinRoom st t sid room).clients := by
  rcases hl : alookup sid st.clients with _ | cd
  · simpa [handleJoinRoom, hl] using h
  · by_cases hv : roomCodeValid room = false
    · simpa [handleJoinRoom, hl, hv] using h
    · simpa [handleJoinRoom, hl, hv] using clientsUnique_roomUpdate h hl (some room)

theorem clientsUnique_handleLeaveRoom {st : GatewaySt} (t : Nat) (sid : String)
    (h : ClientsUnique st.clients) :
    ClientsUnique (handleLeaveRoom st t sid).clients := by
  rcases hl : alookup sid st.clients with _ | cd
  · simpa [handleLeaveRoom, hl] using h
  · rcases hr : cd.roomCode with _ | room
    · simpa [handleLeaveRoom, hl, hr] using h
    · simpa [handleLeaveRoom, hl, hr] using clientsUnique_roomUpdate h hl none

theorem fireTimer_clients (st : GatewaySt) (tm : GraceTimer) :
    (fireTimer st tm).clients = st.clients := by
  rcases h : findClientEntryByUserId st.clients tm.userId with _ | q <;>
    simp [fireTimer, h]

theorem foldl_fireTimer_clients (l : List GraceTimer) (st : GatewaySt) :
    (l.foldl fireTimer st).clients = st.clients := by
  induction l generalizing st with
  | nil => rfl
  | cons tm rest ih => rw [List.foldl_cons, ih, fireTimer_clients]

theorem fireDue_clients (st : GatewaySt) (t : Nat) :
    (fireDue st t).clients = st.clients :=
  foldl_fireTimer_clients _ st

theorem flushTimers_clients (st : GatewaySt) :
    (flushTimers st).clients = st.clients :=
  foldl_fireTimer_clients _ st

theorem clientsUnique_stepEvent {st : GatewaySt} (e : InEvent)
    (h : ClientsUnique st.clients) : ClientsUnique (stepEvent st e).clients := by
  cases e with
  | connect t sid uid nick =>
      exact clientsUnique_handleConnection t sid uid nick (by rwa [fireDue_clients])
  | disconnect t sid =>
      exact clientsUnique_handleDisconnect t sid (by rwa [fireDue_clients])
  | joinRoom t sid room =>
      exact clientsUnique_handleJoinRoom t sid room (by rwa [fireDue_clients])
  | leaveRoom t sid =>
      exact clientsUnique_handleLeaveRoom t sid (by rwa [fireDue_clients])

theorem clientsUnique_processEvents {st : GatewaySt} (evs : List InEvent)
    (h : ClientsUnique st.clients) :
    ClientsUnique (processEvents st evs).clients := by
  induction evs generalizing st with
  | nil => exact h
  | cons e rest ih => exact ih (clientsUnique_stepEvent e h)

theorem cancelPending_lookup_self (st : GatewaySt) (u : String) :
    alookup u (cancelPending st u).timeouts = none := by
  rcases h : alookup u st.timeouts with _ | tp
  · simp [cancelPending, h]
  · simp [cancelPending, h, alookup_aerase_self]

theorem cancelPending_timers_cleared {st : GatewaySt} {u : String} {tp : Nat}
    (h : alookup u st.timeouts = some tp) :
    ∀ tm ∈ (cancelPending st u).timers, tm.tid ≠ tp := by
  intro tm htm
  simp only [cancelPending, h, List.mem_filter] at htm
  simpa using htm.2

end TrpgChat

/-- C2: for every schedule of connection events, the gateway `clients` map
(the session registry) never holds two entries with the same `userId` —
registering a second connection for a user supersedes the previous entry —
and the `connectionId → session` mapping stays key-unique, both after every
processed event and at the end of the run. -/
theorem c2_session_registry_unique (evs : List TrpgChat.InEvent) :
    TrpgChat.ClientsUnique (TrpgChat.processEvents TrpgChat.initSt evs).clients ∧
    TrpgChat.ClientsUnique (TrpgChat.runGateway evs).clients := by
  have h0 : TrpgChat.ClientsUnique TrpgChat.initSt.clients := by
    constructor <;> simp [TrpgChat.initSt, TrpgChat.akeys, TrpgChat.uids]
  have h1 := TrpgChat.clientsUnique_processEvents evs h0
  exact ⟨h1, by rw [TrpgChat.runGateway, TrpgChat.flushTimers_clients]; exact h1⟩

/-- C6: a connect handshake for a `userId` that still has an active entry
in the `clients` map is handled as a reconnection: the new entry carries
over the previous entry's `roomCode`, the previous socket's entry is gone,
the pending grace timer for that user is cancelled (both the
`disconnectTimeouts` entry and the armed timer itself), the new socket is
re-joined to the carried-over room, the room is notified with
`user_reconnected`, and no `user_joined` (and no `user_left`) notice is
emitted by the handler. -/
theorem c6_reconnection_supersedes (st : TrpgChat.GatewaySt) (t : Nat)
    (sid uid nick prevSid : String) (pd : TrpgChat.ClientData)
    (hu : uid ≠ "") (hn : nick ≠ "")
    (hex : TrpgChat.findClientEntryByUserId st.clients uid = some (prevSid, pd)) :
    TrpgChat.alookup sid (TrpgChat.handleConnection st t sid uid nick).clients =
        some ⟨uid, nick, pd.roomCode⟩ ∧
    (prevSid ≠ sid →
      TrpgChat.alookup prevSid (TrpgChat.handleConnection st t sid uid nick).clients = none) ∧
    TrpgChat.alookup uid (TrpgChat.handleConnection st t sid uid nick).timeouts = none ∧
    (∀ tp, TrpgChat.alookup uid st.timeouts = some tp →
      ∀ tm ∈ (TrpgChat.handleConnection st t sid uid nick).timers, tm.tid ≠ tp) ∧
    (∀ r, pd.roomCode = some r →
      (TrpgChat.handleConnection st t sid uid nick).joins = st.joins ++ [(sid, r)] ∧
      (TrpgChat.handleConnection st t sid uid nick).log = st.log ++
        [.userReconnected t r uid nick, .joinedRoom t sid r]) ∧
    (pd.roomCode = none →
      (TrpgChat.handleConnection st t sid uid nick).log = st.log ++
        [.systemMsg t (some sid) "서버에 재연결되었습니다."]) ∧
    (∀ e ∈ (TrpgChat.handleConnection st t sid uid nick).log, e ∉ st.log →
      e.isUserJoined = false ∧ e.isUserLeft = false) := by
  have hauth : ¬ (uid = "" ∨ nick = "") := by
    rintro (h | h)
    · exact hu h
    · exact hn h
  rcases hr : pd.roomCode with _ | r
  · have hconn : TrpgChat.handleConnection st t sid uid nick =
        { TrpgChat.cancelPending st uid with
          clients := TrpgChat.aset sid ⟨uid, nick, none⟩ (TrpgChat.aerase prevSid st.clients),
          log := st.log ++ [.systemMsg t (some sid) "서버에 재연결되었습니다."] } := by
      simp [TrpgChat.handleConnection, hauth, hex, hr]
    rw [hconn]
    refine ⟨by simp [TrpgChat.alookup_aset_self], ?_, ?_, ?_, ?_, ?_, ?_⟩
    · intro hne
      simp only
      rw [TrpgChat.alookup_aset_ne hne, TrpgChat.alookup_aerase_self]
    · simpa using TrpgChat.cancelPending_lookup_self st uid
    · intro tp htp
      simpa using TrpgChat.cancelPending_timers_cleared htp
    · intro r hcontra
      simp [hr] at hcontra
    · intro _
      rfl
    · intro e he hnotold
      simp only [List.mem_append, List.mem_singleton] at he
      rcases he with he | he
      · exact absurd he hnotold
      · subst he
        exact ⟨rfl, rfl⟩
  · have hconn : TrpgChat.handleConnection st t sid uid nick =
        { TrpgChat.cancelPending st uid with
          clients := TrpgChat.aset sid ⟨uid, nick, some r⟩ (TrpgChat.aerase prevSid st.clients),
          joins := st.joins ++ [(sid, r)],
          log := st.log ++ [.userReconnected t r uid nick, .joinedRoom t sid r] } := by
      simp [TrpgChat.handleConnection, hauth, hex, hr]
    rw [hconn]
    refine ⟨by simp [TrpgChat.alookup_aset_self], ?_, ?_, ?_, ?_, ?_, ?_⟩
    · intro hne
      simp only
      rw [TrpgChat.alookup_aset_ne hne, TrpgChat.alookup_aerase_self]
    · simpa using TrpgChat.cancelPending_lookup_self st uid
    · intro tp htp
      simpa using TrpgChat.cancelPending_timers_cleared htp
    · intro r2 hr2
      cases hr2
      exact ⟨rfl, rfl⟩
    · intro hcontra
      simp [hr] at hcontra
    · intro e he hnotold
      simp only [List.mem_append, List.mem_cons, List.mem_singleton] at he
      rcases he with he | he | he
      · exact absurd he hnotold
      · subst he
        exact ⟨rfl, rfl⟩
      · simp at he
        subst he
        exact ⟨rfl, rfl⟩

/-- Witness for C6: a concrete reconnect of user `u1` (old socket `s1`,
room `ROOM1`, pending timer tag `0`) through a fresh socket `s2`. -/
theorem c6_reconnection_supersedes_witness :
    TrpgChat.alookup "s2"
        (TrpgChat.handleConnection
          ⟨[("s1", ⟨"u1", "alice", some "ROOM1"⟩)],
           [⟨0, "u1", "alice", some "ROOM1", 15000⟩],
           [("u1", 0)], [], [], 1⟩ 7 "s2" "u1" "alice").clients =
      some ⟨"u1", "alice", some "ROOM1"⟩ := by
  have h := c6_reconnection_supersedes
    ⟨[("s1", ⟨"u1", "alice", some "ROOM1"⟩)],
     [⟨0, "u1", "alice", some "ROOM1", 15000⟩],
     [("u1", 0)], [], [], 1⟩ 7 "s2" "u1" "alice" "s1"
    ⟨"u1", "alice", some "ROOM1"⟩ (by decide) (by decide) (by decide)
  exact h.1

/-- C9: evaluating `/roll 2d6+3` through `rollCommand` always succeeds,
returns exactly two die results, each between 1 and 6, and a total equal
to their sum plus 3, hence between 5 and 15 inclusive — for every possible
random stream. -/
theorem c9_roll_two_d6_plus_three (rng : Nat → Nat) :
    ∃ r : TrpgChat.DiceResult,
      TrpgChat.rollCommand rng "2d6+3" = .ok r ∧
      r.rolls = [rng 0 % 6 + 1, rng 1 % 6 + 1] ∧
      r.rolls.length = 2 ∧
      (∀ x ∈ r.rolls, 1 ≤ x ∧ x ≤ 6) ∧
      r.total = ((rng 0 % 6 + 1 : Nat) : Int) + ((rng 1 % 6 + 1 : Nat) : Int) + 3 ∧
      5 ≤ r.total ∧ r.total ≤ 15 := by
  have hp : TrpgChat.parseDiceCommand "2d6+3" = some (2, 6, 3) := by decide
  have h0 : rng 0 % 6 < 6 := Nat.mod_lt _ (by decide)
  have h1 : rng 1 % 6 < 6 := Nat.mod_lt _ (by decide)
  refine ⟨⟨[rng 0 % 6 + 1, rng 1 % 6 + 1],
          (0 + ((rng 0 % 6 + 1 : Nat) : Int)) + ((rng 1 % 6 + 1 : Nat) : Int) + 3,
          TrpgChat.joinPlus [rng 0 % 6 + 1, rng 1 % 6 + 1] ++ TrpgChat.modifierDetail 3⟩,
        ?_, rfl, rfl, ?_, ?_, ?_, ?_⟩
  · rfl
  · intro x hx
    simp only [List.mem_cons, List.not_mem_nil, or_false] at hx
    rcases hx with hx | hx <;> subst hx <;> omega
  · simp only
    omega
  · simp only
    omega
  · simp only
    omega

/-- Witness for C9 at the constant random stream `0`. -/
theorem c9_roll_two_d6_plus_three_witness :
    ∃ r : TrpgChat.DiceResult,
      TrpgChat.rollCommand (fun _ => 0) "2d6+3" = .ok r ∧
      r.rolls = [(fun _ => 0 : Nat → Nat) 0 % 6 + 1, (fun _ => 0 : Nat → Nat) 1 % 6 + 1] ∧
      r.rolls.length = 2 ∧
      (∀ x ∈ r.rolls, 1 ≤ x ∧ x ≤ 6) ∧
      r.total = (((fun _ => 0 : Nat → Nat) 0 % 6 + 1 : Nat) : Int) +
        (((fun _ => 0 : Nat → Nat) 1 % 6 + 1 : Nat) : Int) + 3 ∧
      5 ≤ r.total ∧ r.total ≤ 15 :=
  c9_roll_two_d6_plus_three (fun _ => 0)

/-- C7: with no Redis client configured (`USE_REDIS !== 'true'`, so
`this.redis` is `null`), `isRateLimited` reports not-throttled and leaves
no counter state behind — no send is ever rejected as rate-limited. -/
theorem c7_rate_limiter_fails_open (now : Nat) :
    TrpgChat.RedisRateLimit.isRateLimited none now = (false, none) := rfl

/-- Witness for C7 at time 0. -/
theorem c7_rate_limiter_fails_open_witness :
    TrpgChat.RedisRateLimit.isRateLimited none 0 = (false, none) :=
  c7_rate_limiter_fails_open 0

/-- C4 counterexample: in the Redis revision of `isRateLimited`, a send
attempted when the stored window count is already 10 (ten accepted sends)
inside a live window is throttled, but the `INCR` has bumped the stored
count to 11 — the throttled send does *not* leave the stored count
unchanged. -/
theorem c4_counterexample :
    TrpgChat.RedisRateLimit.isRateLimited (some (some (10, 100))) 40 =
      (true, some (some (11, 100))) ∧
    (some (some ((11 : Nat), (100 : Nat))) : Option (Option (Nat × Nat))) ≠
      some (some (10, 100)) := by decide

/-- C4 (amended): in the cache-manager revision a throttled send leaves
the stored count untouched (`count >= limit` returns before any `set`);
in the Redis revision every call — throttled or not — increments the
stored count via `INCR` before the threshold test. -/
theorem c4_throttled_sends_not_counted (c ttlArg exp now : Nat)
    (hc : 10 ≤ c) (hwin : now < exp) :
    TrpgChat.CacheRateLimit.isRateLimited (some (c, ttlArg)) = (true, some (c, ttlArg)) ∧
    TrpgChat.RedisRateLimit.isRateLimited (some (some (c, exp))) now =
      (decide (c + 1 > 10), some (some (c + 1, exp))) ∧
    TrpgChat.RedisRateLimit.isRateLimited (some (some (c, exp))) now ≠
      (true, some (some (c, exp))) := by
  have hexp : ¬ exp ≤ now := by omega
  refine ⟨?_, ?_, ?_⟩
  · simp [TrpgChat.CacheRateLimit.isRateLimited, hc]
  · simp [TrpgChat.RedisRateLimit.isRateLimited, hexp]
  · simp only [TrpgChat.RedisRateLimit.isRateLimited, if_neg hexp]
    intro he
    have h2 := congrArg Prod.snd he
    simp only [Option.some.injEq, Prod.mk.injEq] at h2
    omega

/-- Witness for C4's amended statement at count 10, window expiring at
100, called at time 40. -/
theorem c4_throttled_sends_not_counted_witness :
    (10 ≤ 10 ∧ 40 < 100) ∧
    (TrpgChat.CacheRateLimit.isRateLimited (some (10, 60)) = (true, some (10, 60)) ∧
     TrpgChat.RedisRateLimit.isRateLimited (some (some (10, 100))) 40 =
       (decide (10 + 1 > 10), some (some (10 + 1, 100))) ∧
     TrpgChat.RedisRateLimit.isRateLimited (some (some (10, 100))) 40 ≠
       (true, some (some (10, 100)))) :=
  ⟨⟨by decide, by decide⟩,
   c4_throttled_sends_not_counted 10 60 100 40 (by decide) (by decide)⟩

/-- C10 counterexample: `getMessages` with `limit = -5` — an argument that
does not convert to a positive number — clamps the effective limit to 1,
not to the default 50: of two stored messages of the room only one is
returned, where a default of 50 would return both. -/
theorem c10_counterexample :
    TrpgChat.safeLimit (some (.int (-5))) = 1 ∧
    TrpgChat.safeLimit (some (.int (-5))) ≠ 50 ∧
    TrpgChat.getMessages "ROOM1" (some (.int (-5)))
      [⟨2, "ROOM1", "u1", "alice", "hi2", 9⟩, ⟨1, "ROOM1", "u1", "alice", "hi1", 4⟩] =
      .ok [⟨2, "ROOM1", "u1", "alice", "hi2", 9⟩] := by decide

/-- C10 (amended): the effective fetch limit is always clamped into
`1..200`; it falls back to the default 50 exactly when the argument is
absent, `NaN` or `0` (other non-positive values clamp up to 1); and for a
non-empty room code the returned list never holds more than 200
messages. -/
theorem c10_limit_clamped (roomCode : String) (limit : Option TrpgChat.JSNum)
    (tableDesc : List TrpgChat.Chatmessage) (h : roomCode ≠ "") :
    1 ≤ TrpgChat.safeLimit limit ∧ TrpgChat.safeLimit limit ≤ 200 ∧
    (limit = none ∨ limit = some .nan ∨ limit = some (.int 0) →
      TrpgChat.safeLimit limit = 50) ∧
    ∃ l, TrpgChat.getMessages roomCode limit tableDesc = .ok l ∧ l.length ≤ 200 := by
  have hlo : 1 ≤ TrpgChat.safeLimit limit :=
    le_min (le_max_right _ _) (by norm_num)
  have hhi : TrpgChat.safeLimit limit ≤ 200 := min_le_right _ _
  refine ⟨hlo, hhi, ?_, ?_⟩
  · rintro (hc | hc | hc) <;> subst hc <;> decide
  · refine ⟨((tableDesc.filter (fun m => m.roomCode = roomCode)).take
      (TrpgChat.safeLimit limit).toNat).reverse, by simp [TrpgChat.getMessages, h], ?_⟩
    have htn : (TrpgChat.safeLimit limit).toNat ≤ 200 := by omega
    calc ((tableDesc.filter (fun m => m.roomCode = roomCode)).take
            (TrpgChat.safeLimit limit).toNat).reverse.length
        = ((tableDesc.filter (fun m => m.roomCode = roomCode)).take
            (TrpgChat.safeLimit limit).toNat).length := List.length_reverse _
      _ ≤ (TrpgChat.safeLimit limit).toNat := List.length_take_le _ _
      _ ≤ 200 := htn

/-- Witness for C10's amended statement: room `ROOM1`, `limit = -5`,
empty table. -/
theorem c10_limit_clamped_witness :
    ("ROOM1" : String) ≠ "" ∧
    (1 ≤ TrpgChat.safeLimit (some (.int (-5))) ∧
     TrpgChat.safeLimit (some (.int (-5))) ≤ 200 ∧
     (some (TrpgChat.JSNum.int (-5)) = none ∨
      some (TrpgChat.JSNum.int (-5)) = some .nan ∨
      some (TrpgChat.JSNum.int (-5)) = some (.int 0) →
       TrpgChat.safeLimit (some (.int (-5))) = 50) ∧
     ∃ l, TrpgChat.getMessages "ROOM1" (some (.int (-5))) [] = .ok l ∧ l.length ≤ 200) :=
  ⟨by decide, c10_limit_clamped "ROOM1" (some (.int (-5))) [] (by decide)⟩

/-- C8 counterexample: a `leave_room` (resp. `get_chat_logs`) arriving on
a socket with no session is answered with a single `NOT_IN_ROOM` (resp.
`INVALID_ROOM`) error event — not with `UNAUTHORIZED` as the claim
states. -/
theorem c8_counterexample :
    TrpgChat.dispatchLeaveRoom [] "s1" =
      ([("s1", "NOT_IN_ROOM", "현재 방에 참여하지 않았습니다")], none) ∧
    TrpgChat.dispatchGetChatLogs [] "s1" "ROOM1" =
      ([("s1", "INVALID_ROOM", "해당 방에 참여하지 않았습니다")], none) ∧
    ("NOT_IN_ROOM" : String) ≠ "UNAUTHORIZED" ∧
    ("INVALID_ROOM" : String) ≠ "UNAUTHORIZED" :=
  ⟨rfl, rfl, by decide, by decide⟩

/-- C8 (amended): every room-scoped handler tolerates a session-less
connection without throwing and answers with exactly one error event,
unicast to the originating socket, and no delegation to the service —
code `UNAUTHORIZED` for `join_room` and `send_message`, `NOT_IN_ROOM` for
`leave_room`, `INVALID_ROOM` for `get_chat_logs`. -/
theorem c8_unauthenticated_guards (clients : List (String × TrpgChat.ClientData))
    (sid room : String) (h : TrpgChat.alookup sid clients = none) :
    TrpgChat.dispatchJoinRoom clients sid room =
      ([(sid, "UNAUTHORIZED", "인증 필요")], none) ∧
    TrpgChat.dispatchSendMessage clients sid =
      ([(sid, "UNAUTHORIZED", "인증 필요")], none) ∧
    TrpgChat.dispatchLeaveRoom clients sid =
      ([(sid, "NOT_IN_ROOM", "현재 방에 참여하지 않았습니다")], none) ∧
    TrpgChat.dispatchGetChatLogs clients sid room =
      ([(sid, "INVALID_ROOM", "해당 방에 참여하지 않았습니다")], none) := by
  refine ⟨?_, ?_, ?_, ?_⟩ <;>
    simp [TrpgChat.dispatchJoinRoom, TrpgChat.dispatchSendMessage,
      TrpgChat.dispatchLeaveRoom, TrpgChat.dispatchGetChatLogs, h]

/-- Witness for C8's amended statement: empty session registry, socket
`s1`, room `ROOM1`. -/
theorem c8_unauthenticated_guards_witness :
    TrpgChat.alookup "s1" ([] : List (String × TrpgChat.ClientData)) = none ∧
    (TrpgChat.dispatchJoinRoom [] "s1" "ROOM1" =
      ([("s1", "UNAUTHORIZED", "인증 필요")], none) ∧
     TrpgChat.dispatchSendMessage [] "s1" =
      ([("s1", "UNAUTHORIZED", "인증 필요")], none) ∧
     TrpgChat.dispatchLeaveRoom [] "s1" =
      ([("s1", "NOT_IN_ROOM", "현재 방에 참여하지 않았습니다")], none) ∧
     TrpgChat.dispatchGetChatLogs [] "s1" "ROOM1" =
      ([("s1", "INVALID_ROOM", "해당 방에 참여하지 않았습니다")], none)) :=
  ⟨rfl, c8_unauthenticated_guards [] "s1" "ROOM1" rfl⟩

theorem handleSendMessage_branches (cd : TrpgChat.ClientData)
    (dtoRoom dtoMsg : String) (limited : Bool) (san : String → String)
    (rng : Nat → Nat) (saveOk : Bool) (now : Nat)
    (store : List TrpgChat.MsgPayload) :
    TrpgChat.handleSendMessage cd dtoRoom dtoMsg limited san rng saveOk now store =
        ⟨[.errorTo "VALIDATION_ERROR" "입력값 검증 실패"], store, []⟩ ∨
    TrpgChat.handleSendMessage cd dtoRoom dtoMsg limited san rng saveOk now store =
        ⟨[.errorTo "INVALID_ROOM" "해당 방에 참여하지 않았습니다"], store, []⟩ ∨
    TrpgChat.handleSendMessage cd dtoRoom dtoMsg limited san rng saveOk now store =
        ⟨[.errorTo "RATE_LIMITED" "메시지 전송 제한 초과. 1분 후 다시 시도해 주세요."], store, []⟩ ∨
    TrpgChat.handleSendMessage cd dtoRoom dtoMsg limited san rng saveOk now store =
        ⟨[.errorTo "EMPTY_MESSAGE" "메시지 내용이 비어 있습니다"], store, []⟩ ∨
    TrpgChat.handleSendMessage cd dtoRoom dtoMsg limited san rng saveOk now store =
        ⟨[.errorTo "MESSAGE_TOO_LONG" "메시지는 최대 200자까지 가능합니다"], store, []⟩ ∨
    TrpgChat.handleSendMessage cd dtoRoom dtoMsg limited san rng saveOk now store =
        ⟨[.errorTo "SERVER_ERROR" "메시지 처리에 실패했습니다"], store, []⟩ ∨
    (∃ result : TrpgChat.DiceResult,
      TrpgChat.handleSendMessage cd dtoRoom dtoMsg limited san rng saveOk now store =
        ⟨[.broadcast dtoRoom ⟨"System", "주사위",
            cd.nickname ++ "의 주사위 결과: " ++ toString result.total ++
              " (" ++ result.detail ++ ")", dtoRoom, now⟩], store, []⟩) ∨
    (saveOk = true ∧
      TrpgChat.handleSendMessage cd dtoRoom dtoMsg limited san rng saveOk now store =
        ⟨[.broadcast dtoRoom ⟨cd.userId, cd.nickname, san (TrpgChat.jsTrim dtoMsg), dtoRoom, now⟩],
         store ++ [⟨cd.userId, cd.nickname, san (TrpgChat.jsTrim dtoMsg), dtoRoom, now⟩],
         [⟨cd.userId, cd.nickname, san (TrpgChat.jsTrim dtoMsg), dtoRoom, now⟩]⟩) ∨
    (saveOk = false ∧
      TrpgChat.handleSendMessage cd dtoRoom dtoMsg limited san rng saveOk now store =
        ⟨[.errorTo "SERVER_ERROR" "메시지 처리에 실패했습니다"], store,
         [⟨cd.userId, cd.nickname, san (TrpgChat.jsTrim dtoMsg), dtoRoom, now⟩]⟩) := by
  unfold TrpgChat.handleSendMessage
  split_ifs with h1 h2 h3 h4 h5 h6 h7
  · exact Or.inl rfl
  · exact Or.inr (Or.inl rfl)
  · exact Or.inr (Or.inr (Or.inl rfl))
  · exact Or.inr (Or.inr (Or.inr (Or.inl rfl)))
  · exact Or.inr (Or.inr (Or.inr (Or.inr (Or.inl rfl))))
  · rcases hrc : TrpgChat.rollCommand rng
        (TrpgChat.diceCommandOf (san (TrpgChat.jsTrim dtoMsg))) with e | result
    · exact Or.inr (Or.inr (Or.inr (Or.inr (Or.inr (Or.inl rfl)))))
    · exact Or.inr (Or.inr (Or.inr (Or.inr (Or.inr (Or.inr (Or.inl ⟨result, rfl⟩))))))
  · refine Or.inr (Or.inr (Or.inr (Or.inr (Or.inr (Or.inr (Or.inr (Or.inl ⟨h7, rfl⟩)))))))
  · refine Or.inr (Or.inr (Or.inr (Or.inr (Or.inr (Or.inr (Or.inr (Or.inr ⟨?_, rfl⟩)))))))
    revert h7
    cases saveOk <;> simp

theorem sendMessageV2_cases (userId nickname roomCode dtoRoom dtoMsg : String)
    (san : String → String) (rng : Nat → Nat) (saveOk : Bool) (now : Nat)
    (store : List TrpgChat.SavedMessage) :
    (∃ e, TrpgChat.sendMessageV2 userId nickname roomCode dtoRoom dtoMsg san rng saveOk now store =
      (.error e, store)) ∨
    (∃ saved, saveOk = true ∧
      TrpgChat.sendMessageV2 userId nickname roomCode dtoRoom dtoMsg san rng saveOk now store =
        (.ok saved, store ++ [saved])) := by
  unfold TrpgChat.sendMessageV2 TrpgChat.saveMessageV2
  split_ifs with h1 h2 h3 h4 h5
  · exact Or.inl ⟨_, rfl⟩
  · exact Or.inl ⟨_, rfl⟩
  · rcases hrc : TrpgChat.rollCommand rng
        (TrpgChat.diceCommandOf (san (TrpgChat.jsTrim dtoMsg))) with e | result
    · exact Or.inl ⟨e, rfl⟩
    · exact Or.inr ⟨_, h4, rfl⟩
  · rcases hrc : TrpgChat.rollCommand rng
        (TrpgChat.diceCommandOf (san (TrpgChat.jsTrim dtoMsg))) with e | result
    · exact Or.inl ⟨e, rfl⟩
    · exact Or.inl ⟨_, rfl⟩
  · exact Or.inr ⟨_, h5, rfl⟩
  · exact Or.inl ⟨_, rfl⟩

theorem handleMessageV2_branches (clients : List (String × TrpgChat.ClientData))
    (sid dtoRoom dtoMsg : String) (san : String → String) (rng : Nat → Nat)
    (saveOk : Bool) (now : Nat) (storeV2 : List TrpgChat.SavedMessage) :
    TrpgChat.handleMessageV2 clients sid dtoRoom dtoMsg san rng saveOk now storeV2 =
        ([.errorTo "UNAUTHORIZED" "인증 필요"], storeV2) ∨
    TrpgChat.handleMessageV2 clients sid dtoRoom dtoMsg san rng saveOk now storeV2 =
        ([.errorTo "INVALID_ROOM" "해당 방에 참여하지 않았습니다"], storeV2) ∨
    (∃ e, TrpgChat.handleMessageV2 clients sid dtoRoom dtoMsg san rng saveOk now storeV2 =
        ([.errorTo "SEND_MESSAGE_FAILED" e], storeV2)) ∨
    (∃ saved, saveOk = true ∧
      TrpgChat.handleMessageV2 clients sid dtoRoom dtoMsg san rng saveOk now storeV2 =
        ([.broadcastSaved dtoRoom saved], storeV2 ++ [saved])) := by
  unfold TrpgChat.handleMessageV2
  rcases hl : TrpgChat.alookup sid clients with _ | cd
  · exact Or.inl rfl
  · by_cases hroom : cd.roomCode = some dtoRoom
    · simp only [hroom, ne_eq, not_true_eq_false, if_false, if_neg]
      rcases sendMessageV2_cases cd.userId cd.nickname dtoRoom dtoRoom dtoMsg san rng
          saveOk now storeV2 with ⟨e, he⟩ | ⟨saved, hok, he⟩
      · rw [he]
        exact Or.inr (Or.inr (Or.inl ⟨e, by simp⟩))
      · rw [he]
        exact Or.inr (Or.inr (Or.inr ⟨saved, hok, by simp⟩))
    · refine Or.inr (Or.inl ?_)
      simp [hroom]

/-- C3 counterexample: in the service/gateway revision
(`ChatService.sendMessage` + the gateway `handleMessage` of
`chat.gateway.ts`), a send whose persistence fails is answered with a
single `SEND_MESSAGE_FAILED` error event — no `SERVER_ERROR` error event
is ever emitted (and, consistently with the rest of the claim, nothing is
broadcast and the store is unchanged). -/
theorem c3_counterexample :
    TrpgChat.handleMessageV2 [("s1", ⟨"u1", "alice", some "ROOM1"⟩)] "s1" "ROOM1" "hello"
      id (fun _ => 0) false 0 [] =
      ([.errorTo "SEND_MESSAGE_FAILED" "메시지 저장에 실패했습니다"], []) ∧
    (TrpgChat.handleMessageV2 [("s1", ⟨"u1", "alice", some "ROOM1"⟩)] "s1" "ROOM1" "hello"
      id (fun _ => 0) false 0 []).1.filter TrpgChat.PipeEvent.isServerError = [] ∧
    (TrpgChat.handleMessageV2 [("s1", ⟨"u1", "alice", some "ROOM1"⟩)] "s1" "ROOM1" "hello"
      id (fun _ => 0) false 0 []).1.filter TrpgChat.PipeEvent.isBroadcast = [] := by
  decide

/-- C3 (amended): in both revisions a broadcast of the sender's message
happens only if the persistence call succeeded — in the pipeline revision
every broadcast is either the ephemeral system dice message or a message
that is in the store and was handed to `saveMessage`; when persistence
fails the store is unchanged, nothing is broadcast, and a single error
event is emitted to the sender: `SERVER_ERROR` in the pipeline revision,
`SEND_MESSAGE_FAILED` in the service/gateway revision. -/
theorem c3_persist_then_broadcast (cd : TrpgChat.ClientData)
    (clients : List (String × TrpgChat.ClientData)) (sid dtoRoom dtoMsg : String)
    (limited saveOk : Bool) (san : String → String) (rng : Nat → Nat) (now : Nat)
    (store : List TrpgChat.MsgPayload) (storeV2 : List TrpgChat.SavedMessage) :
    (∀ room p, TrpgChat.PipeEvent.broadcast room p ∈
        (TrpgChat.handleSendMessage cd dtoRoom dtoMsg limited san rng saveOk now store).events →
      p.senderId = "System" ∨
        (saveOk = true ∧
         (TrpgChat.handleSendMessage cd dtoRoom dtoMsg limited san rng saveOk now store).store =
           store ++ [p] ∧
         (TrpgChat.handleSendMessage cd dtoRoom dtoMsg limited san rng saveOk now store).saveCalls =
           [p])) ∧
    (saveOk = false →
      (TrpgChat.handleSendMessage cd dtoRoom dtoMsg limited san rng saveOk now store).store =
        store ∧
      ((TrpgChat.handleSendMessage cd dtoRoom dtoMsg limited san rng saveOk now store).saveCalls ≠
          [] →
        (TrpgChat.handleSendMessage cd dtoRoom dtoMsg limited san rng saveOk now store).events =
          [.errorTo "SERVER_ERROR" "메시지 처리에 실패했습니다"])) ∧
    (∀ room s, TrpgChat.PipeEvent.broadcastSaved room s ∈
        (TrpgChat.handleMessageV2 clients sid dtoRoom dtoMsg san rng saveOk now storeV2).1 →
      saveOk = true ∧
        s ∈ (TrpgChat.handleMessageV2 clients sid dtoRoom dtoMsg san rng saveOk now storeV2).2) ∧
    (saveOk = false →
      (TrpgChat.handleMessageV2 clients sid dtoRoom dtoMsg san rng saveOk now storeV2).2 =
        storeV2 ∧
      (TrpgChat.handleMessageV2 clients sid dtoRoom dtoMsg san rng saveOk now storeV2).1.filter
        TrpgChat.PipeEvent.isBroadcast = [] ∧
      (TrpgChat.handleMessageV2 clients sid dtoRoom dtoMsg san rng saveOk now storeV2).1.length =
        1) := by
  refine ⟨?_, ?_, ?_, ?_⟩
  · intro room p hp
    rcases handleSendMessage_branches cd dtoRoom dtoMsg limited san rng saveOk now store with
      h | h | h | h | h | h | ⟨result, h⟩ | ⟨hok, h⟩ | ⟨hbad, h⟩
    · rw [h] at hp; simp at hp
    · rw [h] at hp; simp at hp
    · rw [h] at hp; simp at hp
    · rw [h] at hp; simp at hp
    · rw [h] at hp; simp at hp
    · rw [h] at hp; simp at hp
    · rw [h] at hp
      simp only [List.mem_singleton, TrpgChat.PipeEvent.broadcast.injEq] at hp
      exact Or.inl (by rw [hp.2])
    · rw [h] at hp
      simp only [List.mem_singleton, TrpgChat.PipeEvent.broadcast.injEq] at hp
      refine Or.inr ⟨hok, ?_, ?_⟩
      · rw [h, hp.2]
      · rw [h, hp.2]
    · rw [h] at hp; simp at hp
  · intro hsf
    rcases handleSendMessage_branches cd dtoRoom dtoMsg limited san rng saveOk now store with
      h | h | h | h | h | h | ⟨result, h⟩ | ⟨hok, h⟩ | ⟨hbad, h⟩
    · exact ⟨by rw [h], fun hne => absurd (by rw [h]) hne⟩
    · exact ⟨by rw [h], fun hne => absurd (by rw [h]) hne⟩
    · exact ⟨by rw [h], fun hne => absurd (by rw [h]) hne⟩
    · exact ⟨by rw [h], fun hne => absurd (by rw [h]) hne⟩
    · exact ⟨by rw [h], fun hne => absurd (by rw [h]) hne⟩
    · exact ⟨by rw [h], fun hne => absurd (by rw [h]) hne⟩
    · exact ⟨by rw [h], fun hne => absurd (by rw [h]) hne⟩
    · rw [hsf] at hok; cases hok
    · exact ⟨by rw [h], fun _ => by rw [h]⟩
  · intro room s hp
    rcases handleMessageV2_branches clients sid dtoRoom dtoMsg san rng saveOk now storeV2 with
      h | h | ⟨e, h⟩ | ⟨saved, hok, h⟩
    · rw [h] at hp; simp at hp
    · rw [h] at hp; simp at hp
    · rw [h] at hp; simp at hp
    · rw [h] at hp
      simp only [List.mem_singleton, TrpgChat.PipeEvent.broadcastSaved.injEq] at hp
      refine ⟨hok, ?_⟩
      rw [h, hp.2]
      simp
  · intro hsf
    rcases handleMessageV2_branches clients sid dtoRoom dtoMsg san rng saveOk now storeV2 with
      h | h | ⟨e, h⟩ | ⟨saved, hok, h⟩
    · exact ⟨by rw [h], by rw [h]; rfl, by rw [h]; rfl⟩
    · exact ⟨by rw [h], by rw [h]; rfl, by rw [h]; rfl⟩
    · exact ⟨by rw [h], by rw [h]; rfl, by rw [h]; rfl⟩
    · rw [hsf] at hok; cases hok

/-- Witness for C3's amended statement at a concrete failing-store send. -/
theorem c3_persist_then_broadcast_witness :
    (∀ room p, TrpgChat.PipeEvent.broadcast room p ∈
        (TrpgChat.handleSendMessage ⟨"u1", "alice", some "ROOM1"⟩ "ROOM1" "hello" false id
          (fun _ => 0) false 0 []).events →
      p.senderId = "System" ∨
        (false = true ∧
         (TrpgChat.handleSendMessage ⟨"u1", "alice", some "ROOM1"⟩ "ROOM1" "hello" false id
           (fun _ => 0) false 0 []).store = [] ++ [p] ∧
         (TrpgChat.handleSendMessage ⟨"u1", "alice", some "ROOM1"⟩ "ROOM1" "hello" false id
           (fun _ => 0) false 0 []).saveCalls = [p])) ∧
    (false = false →
      (TrpgChat.handleSendMessage ⟨"u1", "alice", some "ROOM1"⟩ "ROOM1" "hello" false id
        (fun _ => 0) false 0 []).store = [] ∧
      ((TrpgChat.handleSendMessage ⟨"u1", "alice", some "ROOM1"⟩ "ROOM1" "hello" false id
          (fun _ => 0) false 0 []).saveCalls ≠ [] →
        (TrpgChat.handleSendMessage ⟨"u1", "alice", some "ROOM1"⟩ "ROOM1" "hello" false id
          (fun _ => 0) false 0 []).events =
          [.errorTo "SERVER_ERROR" "메시지 처리에 실패했습니다"])) ∧
    (∀ room s, TrpgChat.PipeEvent.broadcastSaved room s ∈
        (TrpgChat.handleMessageV2 [("s1", ⟨"u1", "alice", some "ROOM1"⟩)] "s1" "ROOM1" "hello"
          id (fun _ => 0) false 0 []).1 →
      false = true ∧
        s ∈ (TrpgChat.handleMessageV2 [("s1", ⟨"u1", "alice", some "ROOM1"⟩)] "s1" "ROOM1" "hello"
          id (fun _ => 0) false 0 []).2) ∧
    (false = false →
      (TrpgChat.handleMessageV2 [("s1", ⟨"u1", "alice", some "ROOM1"⟩)] "s1" "ROOM1" "hello"
        id (fun _ => 0) false 0 []).2 = [] ∧
      (TrpgChat.handleMessageV2 [("s1", ⟨"u1", "alice", some "ROOM1"⟩)] "s1" "ROOM1" "hello"
        id (fun _ => 0) false 0 []).1.filter TrpgChat.PipeEvent.isBroadcast = [] ∧
      (TrpgChat.handleMessageV2 [("s1", ⟨"u1", "alice", some "ROOM1"⟩)] "s1" "ROOM1" "hello"
        id (fun _ => 0) false 0 []).1.length = 1) :=
  c3_persist_then_broadcast ⟨"u1", "alice", some "ROOM1"⟩
    [("s1", ⟨"u1", "alice", some "ROOM1"⟩)] "s1" "ROOM1" "hello" false false id
    (fun _ => 0) 0 [] []

/-- C5 counterexample: in the service revision (`chat.service.ts`), a
successful `/roll 2d6+3` synthesizes the system dice message and *saves*
it: the persisted history grows by one row — it is not left unchanged. -/
theorem c5_counterexample :
    (TrpgChat.sendMessageV2 "u1" "alice" "ROOM1" "ROOM1" "/roll 2d6+3" id (fun _ => 0)
      true 5 []).2 =
      [⟨1, "System", "주사위", "alice의 주사위 결과: 5 (1 + 1 + 3)", "ROOM1", 5⟩] ∧
    (TrpgChat.sendMessageV2 "u1" "alice" "ROOM1" "ROOM1" "/roll 2d6+3" id (fun _ => 0)
      true 5 []).2 ≠ [] := by
  decide

/-- C5 (amended): a send whose sanitized body is a successful `/roll`
command broadcasts the synthesized system message (`senderId` the reserved
`System` identity, body `"{nick}의 주사위 결과: {total} ({detail})"`).  In the
pipeline revision it is never handed to the store and the history is
unchanged; in the service revision of `chat.service.ts` the very same
system message *is* persisted through `saveMessage`. -/
theorem c5_dice_results_ephemeral (cd : TrpgChat.ClientData)
    (dtoRoom dtoMsg userId nickname roomCode : String) (san : String → String)
    (rng : Nat → Nat) (saveOk : Bool) (now : Nat)
    (store : List TrpgChat.MsgPayload) (storeV2 : List TrpgChat.SavedMessage)
    (result : TrpgChat.DiceResult)
    (hv : TrpgChat.sendMessageDtoValid dtoRoom dtoMsg = true)
    (hroom : cd.roomCode = some dtoRoom)
    (htrim : TrpgChat.jsTrim dtoMsg ≠ "")
    (hlen : (san (TrpgChat.jsTrim dtoMsg)).length ≤ 200)
    (hroll : TrpgChat.startsWithRoll (san (TrpgChat.jsTrim dtoMsg)) = true)
    (hok : TrpgChat.rollCommand rng (TrpgChat.diceCommandOf (san (TrpgChat.jsTrim dtoMsg))) =
      .ok result) :
    TrpgChat.handleSendMessage cd dtoRoom dtoMsg false san rng saveOk now store =
      ⟨[.broadcast dtoRoom ⟨"System", "주사위",
          cd.nickname ++ "의 주사위 결과: " ++ toString result.total ++
            " (" ++ result.detail ++ ")", dtoRoom, now⟩], store, []⟩ ∧
    (TrpgChat.sendMessageV2 userId nickname roomCode dtoRoom dtoMsg san rng true now storeV2).2 =
      storeV2 ++ [⟨storeV2.length + 1, "System", "주사위",
        nickname ++ "의 주사위 결과: " ++ toString result.total ++
          " (" ++ result.detail ++ ")", roomCode, now⟩] := by
  have hlen2 : ¬ 200 < (san (TrpgChat.jsTrim dtoMsg)).length := Nat.not_lt.mpr hlen
  constructor
  · rw [TrpgChat.handleSendMessage]
    rw [if_neg (by rw [hv]; intro hc; cases hc), if_neg (by rw [hroom]; intro hc; exact hc rfl),
        if_neg (by intro hc; cases hc), if_neg (fun hc => htrim hc), if_neg hlen2, if_pos hroll,
        hok]
  · rw [TrpgChat.sendMessageV2]
    rw [if_neg (fun hc => htrim hc), if_neg hlen2, if_pos hroll, hok]
    simp [TrpgChat.saveMessageV2]

/-- Witness for C5's amended statement at the concrete send
`/roll 2d6+3` by `alice` in `ROOM1` with the constant random stream 0. -/
theorem c5_dice_results_ephemeral_witness :
    TrpgChat.handleSendMessage ⟨"u1", "alice", some "ROOM1"⟩ "ROOM1" "/roll 2d6+3" false id
      (fun _ => 0) true 0 [] =
      ⟨[.broadcast "ROOM1" ⟨"System", "주사위",
          "alice" ++ "의 주사위 결과: " ++ toString (5 : Int) ++ " (" ++ "1 + 1 + 3" ++ ")",
          "ROOM1", 0⟩], [], []⟩ ∧
    (TrpgChat.sendMessageV2 "u1" "alice" "ROOM1" "ROOM1" "/roll 2d6+3" id (fun _ => 0)
      true 0 []).2 =
      [] ++ [⟨([] : List TrpgChat.SavedMessage).length + 1, "System", "주사위",
        "alice" ++ "의 주사위 결과: " ++ toString (5 : Int) ++ " (" ++ "1 + 1 + 3" ++ ")",
        "ROOM1", 0⟩] :=
  c5_dice_results_ephemeral ⟨"u1", "alice", some "ROOM1"⟩ "ROOM1" "/roll 2d6+3" "u1" "alice"
    "ROOM1" id (fun _ => 0) true 0 [] [] ⟨[1, 1], 5, "1 + 1 + 3"⟩
    (by decide) rfl (by decide) (by decide) (by decide) (by decide)

namespace TrpgChat

theorem mem_aset {m : List (String × α)} {k : String} {v : α} {p : String × α} :
    p ∈ aset k v m ↔ (p ∈ m ∧ p.1 ≠ k) ∨ p = (k, v) := by
  simp [aset, mem_aerase, List.mem_append]

theorem findClientEntryByUserId_isSome {m : List (String × ClientData)} {u : String} :
    (findClientEntryByUserId m u).isSome = true ↔ ∃ p ∈ m, p.2.userId = u := by
  induction m with
  | nil => simp [findClientEntryByUserId]
  | cons p ps ih =>
      by_cases hp : p.2.userId = u
      · simp only [findClientEntryByUserId, if_pos hp, Option.isSome_some, true_iff]
        exact ⟨p, List.mem_cons_self _ _, hp⟩
      · simp only [findClientEntryByUserId, if_neg hp]
        rw [ih]
        constructor
        · rintro ⟨q, hq, hqu⟩
          exact ⟨q, List.mem_cons_of_mem _ hq, hqu⟩
        · rintro ⟨q, hq, hqu⟩
          rcases List.mem_cons.mp hq with h | h
          · subst h; exact absurd hqu hp
          · exact ⟨q, h, hqu⟩

theorem leftTags_append (a b : List OutEvent) :
    leftTags (a ++ b) = leftTags a ++ leftTags b := by
  simp [leftTags]

theorem leftEventsTagged_append (d : Nat) (a b : List OutEvent) :
    leftEventsTagged d (a ++ b) = leftEventsTagged d a ++ leftEventsTagged d b := by
  simp [leftEventsTagged]

theorem mem_leftTags {d : Nat} {l : List OutEvent} :
    d ∈ leftTags l ↔ ∃ tt r nk, OutEvent.userLeft tt (some d) r nk ∈ l := by
  rw [leftTags, List.mem_filterMap]
  constructor
  · rintro ⟨e, he, hfe⟩
    cases e with
    | userLeft tt tg r nk =>
        cases tg with
        | none => simp at hfe
        | some g =>
            simp only [Option.some.injEq] at hfe
            exact ⟨tt, r, nk, by rw [← hfe]; exact he⟩
    | systemOffline tt nk => simp at hfe
    | userReconnected a b c dd => simp at hfe
    | userJoined a b c => simp at hfe
    | joinedRoom a b c => simp at hfe
    | leftRoom a b c => simp at hfe
    | systemMsg a b c => simp at hfe
    | errorEvt a b c dd => simp at hfe
  · rintro ⟨tt, r, nk, he⟩
    exact ⟨.userLeft tt (some d) r nk, he, rfl⟩

theorem leftEventsTagged_eq_nil {d : Nat} {l : List OutEvent}
    (h : d ∉ leftTags l) : leftEventsTagged d l = [] := by
  rw [leftEventsTagged, List.filter_eq_nil_iff]
  intro e he hpe
  apply h
  cases e with
  | userLeft tt tg r nk =>
      cases tg with
      | none => simp at hpe
      | some g =>
          simp only [decide_eq_true_eq] at hpe
          subst hpe
          exact mem_leftTags.mpr ⟨tt, r, nk, he⟩
  | systemOffline tt nk => simp at hpe
  | userReconnected a b c dd => simp at hpe
  | userJoined a b c => simp at hpe
  | joinedRoom a b c => simp at hpe
  | leftRoom a b c => simp at hpe
  | systemMsg a b c => simp at hpe
  | errorEvt a b c dd => simp at hpe

theorem fireTimer_timers (st : GatewaySt) (tm : GraceTimer) :
    (fireTimer st tm).timers = st.timers.filter (fun x => x.tid ≠ tm.tid) := by
  rcases h : findClientEntryByUserId st.clients tm.userId with _ | q <;>
    simp [fireTimer, h]

theorem fireTimer_nextTid (st : GatewaySt) (tm : GraceTimer) :
    (fireTimer st tm).nextTid = st.nextTid := by
  rcases h : findClientEntryByUserId st.clients tm.userId with _ | q <;>
    simp [fireTimer, h]

theorem foldl_fireTimer_nextTid (l : List GraceTimer) (st : GatewaySt) :
    (l.foldl fireTimer st).nextTid = st.nextTid := by
  induction l generalizing st with
  | nil => rfl
  | cons tm rest ih => rw [List.foldl_cons, ih, fireTimer_nextTid]

theorem fireDue_nextTid (st : GatewaySt) (t : Nat) :
    (fireDue st t).nextTid = st.nextTid :=
  foldl_fireTimer_nextTid _ st

theorem foldl_fireTimer_timers (l : List GraceTimer) (st : GatewaySt) :
    (l.foldl fireTimer st).timers =
      st.timers.filter (fun tm => tm.tid ∉ l.map GraceTimer.tid) := by
  induction l generalizing st with
  | nil => simp
  | cons tm rest ih =>
      rw [List.foldl_cons, ih, fireTimer_timers, List.filter_filter]
      congr 1
      funext x
      by_cases h1 : x.tid = tm.tid <;> by_cases h2 : x.tid ∈ rest.map GraceTimer.tid <;>
        simp [h1, h2]

theorem flushTimers_timers (st : GatewaySt) : (flushTimers st).timers = [] := by
  rw [flushTimers, foldl_fireTimer_timers, List.filter_eq_nil_iff]
  intro tm htm
  simp only [decide_not, Bool.not_eq_true', decide_eq_false_iff_not, Decidable.not_not]
  exact List.mem_map.mpr ⟨tm, htm, rfl⟩

theorem foldl_fireTimer_pres {P : GatewaySt → Prop} :
    ∀ (l : List GraceTimer) (st : GatewaySt),
      (∀ st2 tm, P st2 → tm ∈ st2.timers → tm ∈ l → P (fireTimer st2 tm)) →
      P st → (∀ tm ∈ l, tm ∈ st.timers) → (l.map GraceTimer.tid).Nodup →
      P (l.foldl fireTimer st)
  | [], _, _, hP, _, _ => hP
  | tm :: rest, st, hstep, hP, hmem, hnd => by
      simp only [List.map_cons, List.nodup_cons] at hnd
      rw [List.foldl_cons]
      refine foldl_fireTimer_pres rest (fireTimer st tm)
        (fun st2 tm2 h2 hm2 hl2 => hstep st2 tm2 h2 hm2 (List.mem_cons_of_mem _ hl2))
        (hstep st tm hP (hmem tm (List.mem_cons_self _ _)) (List.mem_cons_self _ _))
        ?_ hnd.2
      intro tm2 hm2
      rw [fireTimer_timers, List.mem_filter]
      have htid : tm2.tid ∈ rest.map GraceTimer.tid := List.mem_map.mpr ⟨tm2, hm2, rfl⟩
      have hne : tm2.tid ≠ tm.tid := fun he => hnd.1 (he ▸ htid)
      exact ⟨hmem tm2 (List.mem_cons_of_mem _ hm2), by simpa using hne⟩

theorem fireDue_pres {P : GatewaySt → Prop} (tt : Nat) (st : GatewaySt)
    (hstep : ∀ st2 tm, P st2 → tm ∈ st2.timers → tm.fireAt ≤ tt → P (fireTimer st2 tm))
    (hP : P st) (hnd : (st.timers.map GraceTimer.tid).Nodup) :
    P (fireDue st tt) := by
  refine foldl_fireTimer_pres _ st ?_ hP ?_ ?_
  · intro st2 tm h2 hm2 hl2
    refine hstep st2 tm h2 hm2 ?_
    have := (List.mem_filter.mp hl2).2
    simpa using this
  · intro tm htm
    exact (List.mem_filter.mp htm).1
  · exact hnd.sublist ((List.filter_sublist _).map _)

theorem flushTimers_pres {P : GatewaySt → Prop} (st : GatewaySt)
    (hstep : ∀ st2 tm, P st2 → tm ∈ st2.timers → P (fireTimer st2 tm))
    (hP : P st) (hnd : (st.timers.map GraceTimer.tid).Nodup) :
    P (flushTimers st) :=
  foldl_fireTimer_pres _ st (fun st2 tm h2 hm2 _ => hstep st2 tm h2 hm2) hP
    (fun _ htm => htm) hnd

end TrpgChat

namespace TrpgChat

theorem cancelPending_log (st : GatewaySt) (u : String) :
    (cancelPending st u).log = st.log := by
  rcases h : alookup u st.timeouts with _ | tp <;> simp [cancelPending, h]

theorem cancelPending_joins (st : GatewaySt) (u : String) :
    (cancelPending st u).joins = st.joins := by
  rcases h : alookup u st.timeouts with _ | tp <;> simp [cancelPending, h]

theorem cancelPending_nextTid (st : GatewaySt) (u : String) :
    (cancelPending st u).nextTid = st.nextTid := by
  rcases h : alookup u st.timeouts with _ | tp <;> simp [cancelPending, h]

theorem cancelPending_timers_sub (st : GatewaySt) (u : String) :
    ∀ tm ∈ (cancelPending st u).timers, tm ∈ st.timers := by
  intro tm htm
  rcases h : alookup u st.timeouts with _ | tp
  · simpa [cancelPending, h] using htm
  · rw [cancelPending] at htm
    rw [h] at htm
    exact (List.mem_filter.mp htm).1

/-- Rebuilding a state with new `clients`/`joins`/`log` keeps the
invariant as long as the clients map stays unique and the log keeps the
same timer tags. -/
theorem inv_rebuild {st : GatewaySt} (h : Inv st) {C : List (String × ClientData)}
    {J : List (String × String)} {L : List OutEvent}
    (hCk : (akeys C).Nodup) (hCu : (uids C).Nodup)
    (hL : leftTags L = leftTags st.log) :
    Inv { st with clients := C, joins := J, log := L } := by
  refine { keysND := hCk, uidsND := hCu, tidsND := h.tidsND, tidsLt := h.tidsLt,
           tagsLt := ?_, sync := h.sync, freshTag := ?_ }
  · intro g hg
    refine h.tagsLt g ?_
    rw [← hL]
    exact hg
  · intro tm htm
    rw [show ({ st with clients := C, joins := J, log := L } : GatewaySt).log = L from rfl]
    rw [hL]
    exact h.freshTag tm htm

theorem inv_cancelPending {st : GatewaySt} (h : Inv st) (u : String) :
    Inv (cancelPending st u) := by
  rcases hlk : alookup u st.timeouts with _ | tp
  · rw [cancelPending, hlk]
    exact h
  · obtain ⟨tmc, htmc, htmcu, htmct⟩ := (h.sync u tp).mp hlk
    rw [cancelPending, hlk]
    refine { keysND := h.keysND, uidsND := h.uidsND, tidsND := ?_, tidsLt := ?_,
             tagsLt := h.tagsLt, sync := ?_, freshTag := ?_ }
    · exact h.tidsND.sublist ((List.filter_sublist _).map _)
    · intro tm htm
      exact h.tidsLt tm (List.mem_filter.mp htm).1
    · intro u2 tid2
      by_cases hu2 : u2 = u
      · subst hu2
        rw [alookup_aerase_self]
        constructor
        · intro hc; cases hc
        · rintro ⟨tm, htm, htmu, htmt⟩
          have hmem := (List.mem_filter.mp htm).1
          have hne : ¬ tm.tid = tp := by simpa using (List.mem_filter.mp htm).2
          have h2 := (h.sync u2 tm.tid).mpr ⟨tm, hmem, htmu, rfl⟩
          rw [hlk] at h2
          exact absurd (Option.some.inj h2).symm hne
      · rw [alookup_aerase_ne hu2, h.sync u2 tid2]
        constructor
        · rintro ⟨tm, htm, htmu, htmt⟩
          refine ⟨tm, List.mem_filter.mpr ⟨htm, ?_⟩, htmu, htmt⟩
          have hne : tm.tid ≠ tp := by
            intro he
            have heq : tm = tmc :=
              List.inj_on_of_nodup_map h.tidsND htm htmc (by rw [he, htmct])
            exact hu2 (by rw [← htmu, heq, htmcu])
          simpa using hne
        · rintro ⟨tm, htm, htmu, htmt⟩
          exact ⟨tm, (List.mem_filter.mp htm).1, htmu, htmt⟩
    · intro tm htm
      exact h.freshTag tm (List.mem_filter.mp htm).1

theorem inv_armTimer {st : GatewaySt} (h : Inv st) (t : Nat) (cd : ClientData)
    (hno : ∀ tm ∈ st.timers, tm.userId ≠ cd.userId)
    (_hlk : alookup cd.userId st.timeouts = none) :
    Inv (armTimer st t cd) := by
  refine { keysND := h.keysND, uidsND := h.uidsND, tidsND := ?_, tidsLt := ?_,
           tagsLt := ?_, sync := ?_, freshTag := ?_ }
  · rw [armTimer]
    simp only [List.map_append, List.map_cons, List.map_nil]
    refine List.Nodup.append h.tidsND (by simp) ?_
    intro a ha hb
    simp only [List.mem_singleton] at hb
    subst hb
    rcases List.mem_map.mp ha with ⟨tm, htm, he⟩
    exact absurd he (Nat.ne_of_lt (h.tidsLt tm htm))
  · intro tm htm
    rw [armTimer] at htm
    simp only [List.mem_append, List.mem_singleton] at htm
    rcases htm with htm | htm
    · exact lt_trans (h.tidsLt tm htm) (Nat.lt_succ_self _)
    · rw [htm]
      exact Nat.lt_succ_self _
  · intro g hg
    exact lt_trans (h.tagsLt g hg) (Nat.lt_succ_self _)
  · intro u2 tid2
    by_cases hu2 : u2 = cd.userId
    · subst hu2
      rw [show (armTimer st t cd).timeouts = aset cd.userId st.nextTid st.timeouts from rfl,
          alookup_aset_self]
      constructor
      · intro he
        refine ⟨⟨st.nextTid, cd.userId, cd.nickname, cd.roomCode, t + GRACE⟩, ?_, rfl, ?_⟩
        · rw [show (armTimer st t cd).timers =
              st.timers ++ [⟨st.nextTid, cd.userId, cd.nickname, cd.roomCode, t + GRACE⟩]
              from rfl]
          simp
        · exact (Option.some.inj he)
      · rintro ⟨tm, htm, htmu, htmt⟩
        rw [show (armTimer st t cd).timers =
            st.timers ++ [⟨st.nextTid, cd.userId, cd.nickname, cd.roomCode, t + GRACE⟩]
            from rfl] at htm
        simp only [List.mem_append, List.mem_singleton] at htm
        rcases htm with htm | htm
        · exact absurd htmu (hno tm htm)
        · rw [← htmt, htm]
    · rw [show (armTimer st t cd).timeouts = aset cd.userId st.nextTid st.timeouts from rfl,
          alookup_aset_ne hu2, h.sync u2 tid2]
      constructor
      · rintro ⟨tm, htm, htmu, htmt⟩
        refine ⟨tm, ?_, htmu, htmt⟩
        rw [show (armTimer st t cd).timers =
            st.timers ++ [⟨st.nextTid, cd.userId, cd.nickname, cd.roomCode, t + GRACE⟩]
            from rfl]
        exact List.mem_append_left _ htm
      · rintro ⟨tm, htm, htmu, htmt⟩
        rw [show (armTimer st t cd).timers =
            st.timers ++ [⟨st.nextTid, cd.userId, cd.nickname, cd.roomCode, t + GRACE⟩]
            from rfl] at htm
        simp only [List.mem_append, List.mem_singleton] at htm
        rcases htm with htm | htm
        · exact ⟨tm, htm, htmu, htmt⟩
        · rw [htm] at htmu
          exact absurd htmu.symm hu2
  · intro tm htm
    rw [show (armTimer st t cd).timers =
        st.timers ++ [⟨st.nextTid, cd.userId, cd.nickname, cd.roomCode, t + GRACE⟩]
        from rfl] at htm
    simp only [List.mem_append, List.mem_singleton] at htm
    rcases htm with htm | htm
    · exact h.freshTag tm htm
    · rw [htm]
      intro hmem
      exact absurd (h.tagsLt _ hmem) (lt_irrefl _)

end TrpgChat

namespace TrpgChat

theorem inv_handleConnection {st : GatewaySt} (h : Inv st) (t : Nat)
    (sid uid nick : String) : Inv (handleConnection st t sid uid nick) := by
  have hCU : ClientsUnique (handleConnection st t sid uid nick).clients :=
    clientsUnique_handleConnection t sid uid nick ⟨h.keysND, h.uidsND⟩
  by_cases hauth : uid = "" ∨ nick = ""
  · have heq : handleConnection st t sid uid nick =
        { st with log := st.log ++ [.errorEvt t sid "UNAUTHORIZED" "인증 필요"] } := by
      simp [handleConnection, hauth]
    rw [heq]
    exact inv_rebuild h h.keysND h.uidsND (by simp [leftTags_append, leftTags])
  · rcases hf : findClientEntryByUserId st.clients uid with _ | ⟨prevSid, prevData⟩
    · have heq : handleConnection st t sid uid nick =
          { st with clients := aset sid ⟨uid, nick, none⟩ st.clients,
                    log := st.log ++
                      [.systemMsg t (some sid) "서버에 연결되었습니다.",
                       .systemMsg t none (nick ++ "님이 접속했습니다.")] } := by
        simp [handleConnection, hauth, hf]
      have hCU2 := hCU
      rw [heq] at hCU2
      rw [heq]
      exact inv_rebuild h hCU2.1 hCU2.2 (by simp [leftTags_append, leftTags])
    · rcases hr : prevData.roomCode with _ | r
      · have heq : handleConnection st t sid uid nick =
            { cancelPending st uid with
              clients := aset sid ⟨uid, nick, none⟩ (aerase prevSid st.clients),
              log := st.log ++ [.systemMsg t (some sid) "서버에 재연결되었습니다."] } := by
          simp [handleConnection, hauth, hf, hr]
        have hCU2 := hCU
        rw [heq] at hCU2
        rw [heq]
        refine inv_rebuild (inv_cancelPending h uid) hCU2.1 hCU2.2 ?_
        rw [cancelPending_log]
        simp [leftTags_append, leftTags]
      · have heq : handleConnection st t sid uid nick =
            { cancelPending st uid with
              clients := aset sid ⟨uid, nick, some r⟩ (aerase prevSid st.clients),
              joins := st.joins ++ [(sid, r)],
              log := st.log ++
                [.userReconnected t r uid nick, .joinedRoom t sid r] } := by
          simp [handleConnection, hauth, hf, hr]
        have hCU2 := hCU
        rw [heq] at hCU2
        rw [heq]
        refine inv_rebuild (inv_cancelPending h uid) hCU2.1 hCU2.2 ?_
        rw [cancelPending_log]
        simp [leftTags_append, leftTags]

theorem inv_handleDisconnect {st : GatewaySt} (h : Inv st) (t : Nat) (sid : String) :
    Inv (handleDisconnect st t sid) := by
  rcases hl : alookup sid st.clients with _ | cd
  · simp only [handleDisconnect, hl]
    exact h
  · have h1 : Inv { st with clients := aerase sid st.clients } :=
      inv_rebuild h (h.keysND.sublist (akeys_sublist_aerase _ _))
        (h.uidsND.sublist (uids_sublist_aerase _ _)) rfl
    have h2 : Inv (cancelPending { st with clients := aerase sid st.clients } cd.userId) :=
      inv_cancelPending h1 _
    have hno : ∀ tm ∈ (cancelPending { st with clients := aerase sid st.clients }
        cd.userId).timers, tm.userId ≠ cd.userId := by
      intro tm htm he
      have hx := (h2.sync cd.userId tm.tid).mpr ⟨tm, htm, he, rfl⟩
      rw [cancelPending_lookup_self] at hx
      cases hx
    have heq : handleDisconnect st t sid =
        armTimer (cancelPending { st with clients := aerase sid st.clients } cd.userId)
          t cd := by
      simp [handleDisconnect, hl]
    rw [heq]
    exact inv_armTimer h2 t cd hno (cancelPending_lookup_self _ _)

theorem inv_handleJoinRoom {st : GatewaySt} (h : Inv st) (t : Nat) (sid room : String) :
    Inv (handleJoinRoom st t sid room) := by
  rcases hl : alookup sid st.clients with _ | cd
  · have heq : handleJoinRoom st t sid room =
        { st with log := st.log ++ [.errorEvt t sid "UNAUTHORIZED" "인증 필요"] } := by
      simp [handleJoinRoom, hl]
    rw [heq]
    exact inv_rebuild h h.keysND h.uidsND (by simp [leftTags_append, leftTags])
  · by_cases hv : roomCodeValid room = false
    · have heq : handleJoinRoom st t sid room =
          { st with log := st.log ++ [.errorEvt t sid "VALIDATION_ERROR" "입력값 검증 실패"] } := by
        simp [handleJoinRoom, hl, hv]
      rw [heq]
      exact inv_rebuild h h.keysND h.uidsND (by simp [leftTags_append, leftTags])
    · have hCU : ClientsUnique (aset sid { cd with roomCode := some room } st.clients) :=
        clientsUnique_roomUpdate ⟨h.keysND, h.uidsND⟩ hl (some room)
      have heq : handleJoinRoom st t sid room =
          { st with
            clients := aset sid { cd with roomCode := some room } st.clients,
            joins := st.joins ++ [(sid, room)],
            log := st.log ++
              (match cd.roomCode with
               | some old => [OutEvent.userLeft t none old cd.nickname]
               | none => []) ++
              [.joinedRoom t sid room, .userJoined t room cd.nickname] } := by
        simp [handleJoinRoom, hl, hv]
      rw [heq]
      refine inv_rebuild h hCU.1 hCU.2 ?_
      rcases cd.roomCode with _ | old <;> simp [leftTags_append, leftTags]

theorem inv_handleLeaveRoom {st : GatewaySt} (h : Inv st) (t : Nat) (sid : String) :
    Inv (handleLeaveRoom st t sid) := by
  rcases hl : alookup sid st.clients with _ | cd
  · have heq : handleLeaveRoom st t sid =
        { st with log := st.log ++
            [.errorEvt t sid "NOT_IN_ROOM" "현재 방에 참여하지 않았습니다"] } := by
      simp [handleLeaveRoom, hl]
    rw [heq]
    exact inv_rebuild h h.keysND h.uidsND (by simp [leftTags_append, leftTags])
  · rcases hr : cd.roomCode with _ | room
    · have heq : handleLeaveRoom st t sid =
          { st with log := st.log ++
              [.errorEvt t sid "NOT_IN_ROOM" "현재 방에 참여하지 않았습니다"] } := by
        simp [handleLeaveRoom, hl, hr]
      rw [heq]
      exact inv_rebuild h h.keysND h.uidsND (by simp [leftTags_append, leftTags])
    · have hCU : ClientsUnique (aset sid { cd with roomCode := none } st.clients) :=
        clientsUnique_roomUpdate ⟨h.keysND, h.uidsND⟩ hl none
      have heq : handleLeaveRoom st t sid =
          { st with
            clients := aset sid { cd with roomCode := none } st.clients,
            log := st.log ++
              [.userLeft t none room cd.nickname, .leftRoom t sid room] } := by
        simp [handleLeaveRoom, hl, hr]
      rw [heq]
      exact inv_rebuild h hCU.1 hCU.2 (by simp [leftTags_append, leftTags])

theorem leftTags_nil : leftTags [] = [] := rfl

theorem leftTags_offline (tt : Nat) (nk : String) :
    leftTags [OutEvent.systemOffline tt nk] = [] := rfl

theorem leftTags_left_tagged (tt g : Nat) (r nk : String) :
    leftTags [OutEvent.userLeft tt (some g) r nk] = [g] := rfl

theorem sync_after_fire {st : GatewaySt} (h : Inv st) {tm : GraceTimer}
    (htm : tm ∈ st.timers) :
    ∀ u2 tid2, alookup u2 (aerase tm.userId st.timeouts) = some tid2 ↔
      ∃ tm2 ∈ st.timers.filter (fun x => x.tid ≠ tm.tid),
        tm2.userId = u2 ∧ tm2.tid = tid2 := by
  intro u2 tid2
  by_cases hu2 : u2 = tm.userId
  · subst hu2
    rw [alookup_aerase_self]
    constructor
    · intro hc; cases hc
    · rintro ⟨tm2, htm2, htmu, htmt⟩
      have hmem := (List.mem_filter.mp htm2).1
      have hne : ¬ tm2.tid = tm.tid := by simpa using (List.mem_filter.mp htm2).2
      have ha := (h.sync tm.userId tm2.tid).mpr ⟨tm2, hmem, htmu, rfl⟩
      have hb := (h.sync tm.userId tm.tid).mpr ⟨tm, htm, rfl, rfl⟩
      rw [ha] at hb
      exact (hne (Option.some.inj hb)).elim
  · rw [alookup_aerase_ne hu2, h.sync u2 tid2]
    constructor
    · rintro ⟨tm2, htm2, htmu, htmt⟩
      refine ⟨tm2, List.mem_filter.mpr ⟨htm2, ?_⟩, htmu, htmt⟩
      have hne : tm2.tid ≠ tm.tid := by
        intro he
        have heq : tm2 = tm := List.inj_on_of_nodup_map h.tidsND htm2 htm (by rw [he])
        exact hu2 (by rw [← htmu, heq])
      simpa using hne
    · rintro ⟨tm2, htm2, htmu, htmt⟩
      exact ⟨tm2, (List.mem_filter.mp htm2).1, htmu, htmt⟩

theorem inv_fireTimer {st : GatewaySt} {tm : GraceTimer} (h : Inv st)
    (htm : tm ∈ st.timers) : Inv (fireTimer st tm) := by
  rcases hf : findClientEntryByUserId st.clients tm.userId with _ | q
  · have heq : fireTimer st tm =
        { st with
          timers := st.timers.filter (fun x => x.tid ≠ tm.tid),
          log := st.log ++
            (match tm.roomCode with
             | some r => [.userLeft tm.fireAt (some tm.tid) r tm.nickname]
             | none => []) ++ [.systemOffline tm.fireAt tm.nickname],
          timeouts := aerase tm.userId st.timeouts } := by
      simp [fireTimer, hf]
    rw [heq]
    refine { keysND := h.keysND, uidsND := h.uidsND,
             tidsND := h.tidsND.sublist ((List.filter_sublist _).map _),
             tidsLt := fun tm2 htm2 => h.tidsLt tm2 (List.mem_filter.mp htm2).1,
             tagsLt := ?_, sync := sync_after_fire h htm, freshTag := ?_ }
    · intro g hg
      dsimp only at hg
      rcases hr : tm.roomCode with _ | r <;> rw [hr] at hg <;>
        simp only [leftTags_append, leftTags_nil, leftTags_offline, leftTags_left_tagged,
          List.append_nil, List.mem_append, List.not_mem_nil, or_false,
          List.mem_singleton] at hg
      · exact h.tagsLt g hg
      · rcases hg with hg | hg
        · exact h.tagsLt g hg
        · rw [hg]
          exact h.tidsLt tm htm
    · intro tm2 htm2 hmem
      have h1 := (List.mem_filter.mp htm2).1
      have hne : ¬ tm2.tid = tm.tid := by simpa using (List.mem_filter.mp htm2).2
      dsimp only at hmem
      rcases hr : tm.roomCode with _ | r <;> rw [hr] at hmem <;>
        simp only [leftTags_append, leftTags_nil, leftTags_offline, leftTags_left_tagged,
          List.append_nil, List.mem_append, List.not_mem_nil, or_false,
          List.mem_singleton] at hmem
      · exact h.freshTag tm2 h1 hmem
      · rcases hmem with hmem | hmem
        · exact h.freshTag tm2 h1 hmem
        · exact hne hmem
  · have heq : fireTimer st tm =
        { st with
          timers := st.timers.filter (fun x => x.tid ≠ tm.tid),
          timeouts := aerase tm.userId st.timeouts } := by
      simp [fireTimer, hf]
    rw [heq]
    exact { keysND := h.keysND, uidsND := h.uidsND,
            tidsND := h.tidsND.sublist ((List.filter_sublist _).map _),
            tidsLt := fun tm2 htm2 => h.tidsLt tm2 (List.mem_filter.mp htm2).1,
            tagsLt := h.tagsLt, sync := sync_after_fire h htm,
            freshTag := fun tm2 htm2 => h.freshTag tm2 (List.mem_filter.mp htm2).1 }

theorem inv_fireDue {st : GatewaySt} (h : Inv st) (t : Nat) : Inv (fireDue st t) :=
  fireDue_pres t st (fun _ _ h2 hm2 _ => inv_fireTimer h2 hm2) h h.tidsND

theorem inv_stepEvent {st : GatewaySt} (h : Inv st) (e : InEvent) :
    Inv (stepEvent st e) := by
  cases e with
  | connect t sid uid nick => exact inv_handleConnection (inv_fireDue h t) t sid uid nick
  | disconnect t sid => exact inv_handleDisconnect (inv_fireDue h t) t sid
  | joinRoom t sid room => exact inv_handleJoinRoom (inv_fireDue h t) t sid room
  | leaveRoom t sid => exact inv_handleLeaveRoom (inv_fireDue h t) t sid

theorem inv_initSt : Inv initSt := by
  refine { keysND := ?_, uidsND := ?_, tidsND := ?_, tidsLt := ?_, tagsLt := ?_,
           sync := ?_, freshTag := ?_ } <;>
    simp [initSt, akeys, uids, leftTags, alookup]

theorem inv_processEvents {st : GatewaySt} (h : Inv st) (evs : List InEvent) :
    Inv (processEvents st evs) := by
  induction evs generalizing st with
  | nil => exact h
  | cons e rest ih => exact ih (inv_stepEvent h e)

end TrpgChat

namespace TrpgChat

theorem leftEventsTagged_nil (d : Nat) : leftEventsTagged d [] = [] := rfl

theorem leftEventsTagged_single_other {d : Nat} {e : OutEvent}
    (h : ∀ tt g r nk, e = OutEvent.userLeft tt (some g) r nk → g ≠ d) :
    leftEventsTagged d [e] = [] := by
  rw [leftEventsTagged, List.filter_eq_nil_iff]
  intro a ha hpa
  simp only [List.mem_singleton] at ha
  subst ha
  cases a with
  | userLeft tt tg r nk =>
      cases tg with
      | none => simp at hpa
      | some g =>
          simp only [decide_eq_true_eq] at hpa
          exact h tt g r nk rfl hpa
  | systemOffline tt nk => simp at hpa
  | userReconnected a b c dd => simp at hpa
  | userJoined a b c => simp at hpa
  | joinedRoom a b c => simp at hpa
  | leftRoom a b c => simp at hpa
  | systemMsg a b c => simp at hpa
  | errorEvt a b c dd => simp at hpa

theorem leftEventsTagged_left_self (d tt : Nat) (r nk : String) :
    leftEventsTagged d [OutEvent.userLeft tt (some d) r nk] =
      [OutEvent.userLeft tt (some d) r nk] := by
  simp [leftEventsTagged]

theorem fireTimer_log_cases (st : GatewaySt) (tm : GraceTimer) :
    ∃ l1, (fireTimer st tm).log = st.log ++ l1 ∧ ∀ g ∈ leftTags l1, g = tm.tid := by
  rcases hf : findClientEntryByUserId st.clients tm.userId with _ | q
  · refine ⟨(match tm.roomCode with
      | some r => [OutEvent.userLeft tm.fireAt (some tm.tid) r tm.nickname]
      | none => []) ++ [.systemOffline tm.fireAt tm.nickname], ?_, ?_⟩
    · simp [fireTimer, hf]
    · intro g hg
      rcases hr : tm.roomCode with _ | r <;> rw [hr] at hg <;>
        rw [leftTags_append] at hg
      · rw [leftTags_nil, leftTags_offline] at hg
        simp at hg
      · rw [leftTags_left_tagged, leftTags_offline] at hg
        simpa using hg
  · refine ⟨[], ?_, ?_⟩
    · simp [fireTimer, hf]
    · intro g hg
      simp [leftTags] at hg

theorem foldl_fireTimer_log (l : List GraceTimer) (st : GatewaySt) :
    ∃ l2, (l.foldl fireTimer st).log = st.log ++ l2 ∧
      ∀ g ∈ leftTags l2, ∃ tm ∈ l, tm.tid = g := by
  induction l generalizing st with
  | nil => exact ⟨[], by simp, by intro g hg; simp [leftTags] at hg⟩
  | cons tm rest ih =>
      obtain ⟨l1, hl1, hg1⟩ := fireTimer_log_cases st tm
      obtain ⟨l2, hl2, hg2⟩ := ih (fireTimer st tm)
      refine ⟨l1 ++ l2, ?_, ?_⟩
      · rw [List.foldl_cons, hl2, hl1, List.append_assoc]
      · intro g hg
        rw [leftTags_append, List.mem_append] at hg
        rcases hg with hg | hg
        · exact ⟨tm, List.mem_cons_self _ _, (hg1 g hg).symm⟩
        · obtain ⟨tm2, htm2, he⟩ := hg2 g hg
          exact ⟨tm2, List.mem_cons_of_mem _ htm2, he⟩

theorem fireDue_log (st : GatewaySt) (tt : Nat) :
    ∃ l2, (fireDue st tt).log = st.log ++ l2 ∧
      ∀ g ∈ leftTags l2, ∃ tm ∈ st.timers, tm.tid = g ∧ tm.fireAt ≤ tt := by
  obtain ⟨l2, hl2, hg2⟩ := foldl_fireTimer_log (st.timers.filter (fun tm => tm.fireAt ≤ tt)) st
  refine ⟨l2, hl2, ?_⟩
  intro g hg
  obtain ⟨tm, htm, he⟩ := hg2 g hg
  have h1 := (List.mem_filter.mp htm).1
  have h2 := (List.mem_filter.mp htm).2
  exact ⟨tm, h1, he, by simpa using h2⟩

theorem handleConnection_log (st : GatewaySt) (t : Nat) (sid uid nick : String) :
    ∃ l1, (handleConnection st t sid uid nick).log = st.log ++ l1 ∧ leftTags l1 = [] := by
  by_cases hauth : uid = "" ∨ nick = ""
  · exact ⟨[.errorEvt t sid "UNAUTHORIZED" "인증 필요"],
      by simp [handleConnection, hauth], rfl⟩
  · rcases hf : findClientEntryByUserId st.clients uid with _ | ⟨prevSid, prevData⟩
    · exact ⟨[.systemMsg t (some sid) "서버에 연결되었습니다.",
        .systemMsg t none (nick ++ "님이 접속했습니다.")],
        by simp [handleConnection, hauth, hf], rfl⟩
    · rcases hr : prevData.roomCode with _ | r
      · exact ⟨[.systemMsg t (some sid) "서버에 재연결되었습니다."],
          by simp [handleConnection, hauth, hf, hr], rfl⟩
      · exact ⟨[.userReconnected t r uid nick, .joinedRoom t sid r],
          by simp [handleConnection, hauth, hf, hr], rfl⟩

theorem handleDisconnect_log (st : GatewaySt) (t : Nat) (sid : String) :
    (handleDisconnect st t sid).log = st.log := by
  rcases hl : alookup sid st.clients with _ | cd
  · simp [handleDisconnect, hl]
  · have : (handleDisconnect st t sid).log =
        (cancelPending { st with clients := aerase sid st.clients } cd.userId).log := by
      simp [handleDisconnect, hl, armTimer]
    rw [this, cancelPending_log]

theorem handleJoinRoom_log (st : GatewaySt) (t : Nat) (sid room : String) :
    ∃ l1, (handleJoinRoom st t sid room).log = st.log ++ l1 ∧ leftTags l1 = [] := by
  rcases hl : alookup sid st.clients with _ | cd
  · exact ⟨[.errorEvt t sid "UNAUTHORIZED" "인증 필요"], by simp [handleJoinRoom, hl], rfl⟩
  · by_cases hv : roomCodeValid room = false
    · exact ⟨[.errorEvt t sid "VALIDATION_ERROR" "입력값 검증 실패"],
        by simp [handleJoinRoom, hl, hv], rfl⟩
    · refine ⟨(match cd.roomCode with
        | some old => [OutEvent.userLeft t none old cd.nickname]
        | none => []) ++ [.joinedRoom t sid room, .userJoined t room cd.nickname],
        by simp [handleJoinRoom, hl, hv], ?_⟩
      rcases cd.roomCode with _ | old <;> simp [leftTags_append, leftTags]

theorem handleLeaveRoom_log (st : GatewaySt) (t : Nat) (sid : String) :
    ∃ l1, (handleLeaveRoom st t sid).log = st.log ++ l1 ∧ leftTags l1 = [] := by
  rcases hl : alookup sid st.clients with _ | cd
  · exact ⟨[.errorEvt t sid "NOT_IN_ROOM" "현재 방에 참여하지 않았습니다"],
      by simp [handleLeaveRoom, hl], rfl⟩
  · rcases hr : cd.roomCode with _ | room
    · exact ⟨[.errorEvt t sid "NOT_IN_ROOM" "현재 방에 참여하지 않았습니다"],
        by simp [handleLeaveRoom, hl, hr], rfl⟩
    · exact ⟨[.userLeft t none room cd.nickname, .leftRoom t sid room],
        by simp [handleLeaveRoom, hl, hr], by simp [leftTags]⟩

theorem stepEvent_log (st : GatewaySt) (e : InEvent) :
    ∃ l2, (stepEvent st e).log = st.log ++ l2 ∧
      ∀ g ∈ leftTags l2, ∃ tm ∈ st.timers, tm.tid = g := by
  cases e with
  | connect t sid uid nick =>
      obtain ⟨lD, hlD, hgD⟩ := fireDue_log st t
      obtain ⟨l1, hl1, hg1⟩ := handleConnection_log (fireDue st t) t sid uid nick
      refine ⟨lD ++ l1, ?_, ?_⟩
      · rw [show stepEvent st (.connect t sid uid nick) =
          handleConnection (fireDue st t) t sid uid nick from rfl, hl1, hlD,
          List.append_assoc]
      · intro g hg
        rw [leftTags_append, List.mem_append] at hg
        rcases hg with hg | hg
        · obtain ⟨tm, htm, he, _⟩ := hgD g hg
          exact ⟨tm, htm, he⟩
        · rw [hg1] at hg
          cases hg
  | disconnect t sid =>
      obtain ⟨lD, hlD, hgD⟩ := fireDue_log st t
      refine ⟨lD, ?_, ?_⟩
      · rw [show stepEvent st (.disconnect t sid) =
          handleDisconnect (fireDue st t) t sid from rfl, handleDisconnect_log]
        exact hlD
      · intro g hg
        obtain ⟨tm, htm, he, _⟩ := hgD g hg
        exact ⟨tm, htm, he⟩
  | joinRoom t sid room =>
      obtain ⟨lD, hlD, hgD⟩ := fireDue_log st t
      obtain ⟨l1, hl1, hg1⟩ := handleJoinRoom_log (fireDue st t) t sid room
      refine ⟨lD ++ l1, ?_, ?_⟩
      · rw [show stepEvent st (.joinRoom t sid room) =
          handleJoinRoom (fireDue st t) t sid room from rfl, hl1, hlD, List.append_assoc]
      · intro g hg
        rw [leftTags_append, List.mem_append] at hg
        rcases hg with hg | hg
        · obtain ⟨tm, htm, he, _⟩ := hgD g hg
          exact ⟨tm, htm, he⟩
        · rw [hg1] at hg
          cases hg
  | leaveRoom t sid =>
      obtain ⟨lD, hlD, hgD⟩ := fireDue_log st t
      obtain ⟨l1, hl1, hg1⟩ := handleLeaveRoom_log (fireDue st t) t sid
      refine ⟨lD ++ l1, ?_, ?_⟩
      · rw [show stepEvent st (.leaveRoom t sid) =
          handleLeaveRoom (fireDue st t) t sid from rfl, hl1, hlD, List.append_assoc]
      · intro g hg
        rw [leftTags_append, List.mem_append] at hg
        rcases hg with hg | hg
        · obtain ⟨tm, htm, he, _⟩ := hgD g hg
          exact ⟨tm, htm, he⟩
        · rw [hg1] at hg
          cases hg

end TrpgChat

namespace TrpgChat

theorem handleConnection_nextTid (st : GatewaySt) (t : Nat) (sid uid nick : String) :
    (handleConnection st t sid uid nick).nextTid = st.nextTid := by
  by_cases hauth : uid = "" ∨ nick = ""
  · simp [handleConnection, hauth]
  · rcases hf : findClientEntryByUserId st.clients uid with _ | ⟨prevSid, prevData⟩
    · simp [handleConnection, hauth, hf]
    · rcases hr : prevData.roomCode with _ | r <;>
        simp [handleConnection, hauth, hf, hr, cancelPending_nextTid]

theorem handleConnection_timers_sub (st : GatewaySt) (t : Nat) (sid uid nick : String) :
    ∀ tm ∈ (handleConnection st t sid uid nick).timers, tm ∈ st.timers := by
  intro tm htm
  by_cases hauth : uid = "" ∨ nick = ""
  · simp only [handleConnection, hauth, if_true, if_pos] at htm
    exact htm
  · rcases hf : findClientEntryByUserId st.clients uid with _ | ⟨prevSid, prevData⟩
    · simp only [handleConnection, hauth, if_false, if_neg, hf] at htm
      exact htm
    · rcases hr : prevData.roomCode with _ | r <;>
        simp only [handleConnection, hauth, if_false, if_neg, hf, hr] at htm <;>
        exact cancelPending_timers_sub st uid tm htm

theorem handleDisconnect_timers (st : GatewaySt) (t : Nat) (sid : String) :
    ∀ tm ∈ (handleDisconnect st t sid).timers, tm ∈ st.timers ∨ tm.tid = st.nextTid := by
  intro tm htm
  rcases hl : alookup sid st.clients with _ | cd
  · simp only [handleDisconnect, hl] at htm
    exact Or.inl htm
  · simp only [handleDisconnect, hl, armTimer, List.mem_append, List.mem_singleton] at htm
    rcases htm with htm | htm
    · exact Or.inl (cancelPending_timers_sub
        { st with clients := aerase sid st.clients } cd.userId tm htm)
    · right
      rw [htm, cancelPending_nextTid]

theorem handleDisconnect_nextTid_ge (st : GatewaySt) (t : Nat) (sid : String) :
    st.nextTid ≤ (handleDisconnect st t sid).nextTid := by
  rcases hl : alookup sid st.clients with _ | cd
  · simp [handleDisconnect, hl]
  · simp [handleDisconnect, hl, armTimer, cancelPending_nextTid]

theorem handleJoinRoom_timers (st : GatewaySt) (t : Nat) (sid room : String) :
    (handleJoinRoom st t sid room).timers = st.timers := by
  rcases hl : alookup sid st.clients with _ | cd
  · simp [handleJoinRoom, hl]
  · by_cases hv : roomCodeValid room = false <;> simp [handleJoinRoom, hl, hv]

theorem handleJoinRoom_nextTid (st : GatewaySt) (t : Nat) (sid room : String) :
    (handleJoinRoom st t sid room).nextTid = st.nextTid := by
  rcases hl : alookup sid st.clients with _ | cd
  · simp [handleJoinRoom, hl]
  · by_cases hv : roomCodeValid room = false <;> simp [handleJoinRoom, hl, hv]

theorem handleLeaveRoom_timers (st : GatewaySt) (t : Nat) (sid : String) :
    (handleLeaveRoom st t sid).timers = st.timers := by
  rcases hl : alookup sid st.clients with _ | cd
  · simp [handleLeaveRoom, hl]
  · rcases hr : cd.roomCode with _ | room <;> simp [handleLeaveRoom, hl, hr]

theorem handleLeaveRoom_nextTid (st : GatewaySt) (t : Nat) (sid : String) :
    (handleLeaveRoom st t sid).nextTid = st.nextTid := by
  rcases hl : alookup sid st.clients with _ | cd
  · simp [handleLeaveRoom, hl]
  · rcases hr : cd.roomCode with _ | room <;> simp [handleLeaveRoom, hl, hr]

theorem fireDue_timers_sub (st : GatewaySt) (tt : Nat) :
    ∀ tm ∈ (fireDue st tt).timers, tm ∈ st.timers := by
  intro tm htm
  rw [fireDue, foldl_fireTimer_timers] at htm
  exact (List.mem_filter.mp htm).1

theorem stepEvent_timers (st : GatewaySt) (e : InEvent) :
    ∀ tm ∈ (stepEvent st e).timers, tm ∈ st.timers ∨ st.nextTid ≤ tm.tid := by
  intro tm htm
  cases e with
  | connect t sid uid nick =>
      exact Or.inl (fireDue_timers_sub st t tm
        (handleConnection_timers_sub (fireDue st t) t sid uid nick tm htm))
  | disconnect t sid =>
      rcases handleDisconnect_timers (fireDue st t) t sid tm htm with hm | hm
      · exact Or.inl (fireDue_timers_sub st t tm hm)
      · right
        rw [hm, fireDue_nextTid]
  | joinRoom t sid room =>
      rw [show stepEvent st (.joinRoom t sid room) =
        handleJoinRoom (fireDue st t) t sid room from rfl, handleJoinRoom_timers] at htm
      exact Or.inl (fireDue_timers_sub st t tm htm)
  | leaveRoom t sid =>
      rw [show stepEvent st (.leaveRoom t sid) =
        handleLeaveRoom (fireDue st t) t sid from rfl, handleLeaveRoom_timers] at htm
      exact Or.inl (fireDue_timers_sub st t tm htm)

theorem stepEvent_nextTid (st : GatewaySt) (e : InEvent) :
    st.nextTid ≤ (stepEvent st e).nextTid := by
  cases e with
  | connect t sid uid nick =>
      rw [show stepEvent st (.connect t sid uid nick) =
        handleConnection (fireDue st t) t sid uid nick from rfl,
        handleConnection_nextTid, fireDue_nextTid]
  | disconnect t sid =>
      have := handleDisconnect_nextTid_ge (fireDue st t) t sid
      rw [fireDue_nextTid] at this
      exact this
  | joinRoom t sid room =>
      rw [show stepEvent st (.joinRoom t sid room) =
        handleJoinRoom (fireDue st t) t sid room from rfl,
        handleJoinRoom_nextTid, fireDue_nextTid]
  | leaveRoom t sid =>
      rw [show stepEvent st (.leaveRoom t sid) =
        handleLeaveRoom (fireDue st t) t sid from rfl,
        handleLeaveRoom_nextTid, fireDue_nextTid]

theorem fired_of_master {tm0 : GraceTimer} {st st' : GatewaySt}
    (h : PhaseFired tm0 st) (hInv : Inv st')
    (htm : ∀ tm ∈ st'.timers, tm ∈ st.timers ∨ st.nextTid ≤ tm.tid)
    (hnt : st.nextTid ≤ st'.nextTid)
    (hlog : ∃ l2, st'.log = st.log ++ l2 ∧
      ∀ g ∈ leftTags l2, ∃ tm ∈ st.timers, tm.tid = g) :
    PhaseFired tm0 st' := by
  obtain ⟨hI, hT, hL, hG⟩ := h
  refine ⟨hInv, ?_, lt_of_lt_of_le hL hnt, ?_⟩
  · intro tm htm2
    rcases htm tm htm2 with hm | hm
    · exact hT tm hm
    · intro he
      rw [he] at hm
      omega
  · obtain ⟨l2, hl2, hg2⟩ := hlog
    rw [hl2, leftEventsTagged_append, hG]
    have hz : leftEventsTagged tm0.tid l2 = [] := by
      apply leftEventsTagged_eq_nil
      intro hmem
      obtain ⟨tm, htmx, he⟩ := hg2 _ hmem
      exact hT tm htmx he
    rw [hz, List.append_nil]

theorem fired_fireTimer {tm0 : GraceTimer} {st : GatewaySt} {tm : GraceTimer}
    (h : PhaseFired tm0 st) (htm : tm ∈ st.timers) :
    PhaseFired tm0 (fireTimer st tm) := by
  refine fired_of_master h (inv_fireTimer h.1 htm) ?_ ?_ ?_
  · intro tm2 htm2
    rw [fireTimer_timers] at htm2
    exact Or.inl (List.mem_filter.mp htm2).1
  · rw [fireTimer_nextTid]
  · obtain ⟨l1, hl1, hg1⟩ := fireTimer_log_cases st tm
    exact ⟨l1, hl1, fun g hg => ⟨tm, htm, (hg1 g hg).symm⟩⟩

theorem fired_stepEvent {tm0 : GraceTimer} {st : GatewaySt}
    (h : PhaseFired tm0 st) (e : InEvent) : PhaseFired tm0 (stepEvent st e) :=
  fired_of_master h (inv_stepEvent h.1 e) (stepEvent_timers st e)
    (stepEvent_nextTid st e) (stepEvent_log st e)

end TrpgChat

namespace TrpgChat

theorem leftEventsTagged_offline_nil (d tt : Nat) (nk : String) :
    leftEventsTagged d [OutEvent.systemOffline tt nk] = [] := rfl

theorem noSession_aset {m : List (String × ClientData)} {u sid : String} {v : ClientData}
    (h : findClientEntryByUserId m u = none) (hv : v.userId ≠ u) :
    findClientEntryByUserId (aset sid v m) u = none := by
  rw [findClientEntryByUserId_eq_none] at h ⊢
  intro p hp
  rcases mem_aset.mp hp with ⟨hm, _⟩ | he
  · exact h p hm
  · rw [he]
    exact hv

theorem noSession_aerase {m : List (String × ClientData)} {u k : String}
    (h : findClientEntryByUserId m u = none) :
    findClientEntryByUserId (aerase k m) u = none := by
  rw [findClientEntryByUserId_eq_none] at h ⊢
  intro p hp
  exact h p (mem_aerase.mp hp).1

theorem cancelPending_mem_of_ne_user {st : GatewaySt} {u : String} (hInv : Inv st)
    {tm0 : GraceTimer} (htm0 : tm0 ∈ st.timers) (hne : tm0.userId ≠ u) :
    tm0 ∈ (cancelPending st u).timers := by
  rcases hlk : alookup u st.timeouts with _ | tp
  · rw [cancelPending, hlk]
    exact htm0
  · rw [cancelPending, hlk]
    obtain ⟨tmc, htmc, htmcu, htmct⟩ := (hInv.sync u tp).mp hlk
    refine List.mem_filter.mpr ⟨htm0, ?_⟩
    have hx : tm0.tid ≠ tp := by
      intro he
      have heq2 : tm0 = tmc :=
        List.inj_on_of_nodup_map hInv.tidsND htm0 htmc (by rw [he, htmct])
      exact hne (by rw [heq2, htmcu])
    simpa using hx

theorem validConnectFor_false {u : String} {t : Nat} {sid uid nick : String}
    (h : validConnectFor u (.connect t sid uid nick) = false) :
    uid = "" ∨ nick = "" ∨ uid ≠ u := by
  by_cases h1 : uid = ""
  · exact Or.inl h1
  by_cases h2 : nick = ""
  · exact Or.inr (Or.inl h2)
  refine Or.inr (Or.inr ?_)
  intro he
  subst he
  simp [validConnectFor, h1, h2] at h

theorem handleConnection_mem_timer {st : GatewaySt} (hInv : Inv st)
    {tm0 : GraceTimer} (htm0 : tm0 ∈ st.timers) (t : Nat) (sid uid nick : String)
    (hcase : uid = "" ∨ nick = "" ∨ uid ≠ tm0.userId) :
    tm0 ∈ (handleConnection st t sid uid nick).timers := by
  by_cases hauth : uid = "" ∨ nick = ""
  · simp only [handleConnection, hauth, if_true, if_pos]
    exact htm0
  · have hneu : uid ≠ tm0.userId := by
      rcases hcase with hc | hc | hc
      · exact absurd (Or.inl hc) hauth
      · exact absurd (Or.inr hc) hauth
      · exact hc
    rcases hf : findClientEntryByUserId st.clients uid with _ | ⟨prevSid, prevData⟩
    · simp only [handleConnection, hauth, if_false, if_neg, hf]
      exact htm0
    · rcases hr : prevData.roomCode with _ | r <;>
        simp only [handleConnection, hauth, if_false, if_neg, hf, hr] <;>
        exact cancelPending_mem_of_ne_user hInv htm0 (fun he => hneu he.symm)

theorem handleConnection_noSession {st : GatewaySt} {u : String}
    (hns : findClientEntryByUserId st.clients u = none) (t : Nat)
    (sid uid nick : String) (hcase : uid = "" ∨ nick = "" ∨ uid ≠ u) :
    findClientEntryByUserId (handleConnection st t sid uid nick).clients u = none := by
  rw [handleConnection_clients]
  by_cases hauth : uid = "" ∨ nick = ""
  · simpa [hauth] using hns
  · have hneu : uid ≠ u := by
      rcases hcase with hc | hc | hc
      · exact absurd (Or.inl hc) hauth
      · exact absurd (Or.inr hc) hauth
      · exact hc
    simp only [if_neg hauth]
    rcases hf : findClientEntryByUserId st.clients uid with _ | q
    · exact noSession_aset hns hneu
    · exact noSession_aset (noSession_aerase hns) hneu

theorem armed_handleConnection {tm0 : GraceTimer} {st : GatewaySt}
    (h : PhaseArmed tm0 st) (t : Nat) (sid uid nick : String)
    (hcase : uid = "" ∨ nick = "" ∨ uid ≠ tm0.userId) :
    PhaseArmed tm0 (handleConnection st t sid uid nick) :=
  ⟨inv_handleConnection h.1 t sid uid nick,
   handleConnection_mem_timer h.1 h.2.1 t sid uid nick hcase,
   handleConnection_noSession h.2.2 t sid uid nick hcase⟩

theorem armed_handleDisconnect {tm0 : GraceTimer} {st : GatewaySt}
    (h : PhaseArmed tm0 st) (t : Nat) (sid : String) :
    PhaseArmed tm0 (handleDisconnect st t sid) := by
  obtain ⟨hI, hT, hN⟩ := h
  refine ⟨inv_handleDisconnect hI t sid, ?_, ?_⟩
  · rcases hl : alookup sid st.clients with _ | cd
    · simp only [handleDisconnect, hl]
      exact hT
    · have hcd : tm0.userId ≠ cd.userId := by
        intro he
        exact absurd he.symm ((findClientEntryByUserId_eq_none.mp hN) (sid, cd) (alookup_mem hl))
      have hI1 : Inv { st with clients := aerase sid st.clients } :=
        inv_rebuild hI (hI.keysND.sublist (akeys_sublist_aerase _ _))
          (hI.uidsND.sublist (uids_sublist_aerase _ _)) rfl
      simp only [handleDisconnect, hl, armTimer, List.mem_append, List.mem_singleton]
      exact Or.inl (cancelPending_mem_of_ne_user hI1 hT hcd)
  · rw [handleDisconnect_clients]
    rcases alookup sid st.clients with _ | cd
    · exact hN
    · exact noSession_aerase hN

theorem armed_handleJoinRoom {tm0 : GraceTimer} {st : GatewaySt}
    (h : PhaseArmed tm0 st) (t : Nat) (sid room : String) :
    PhaseArmed tm0 (handleJoinRoom st t sid room) := by
  obtain ⟨hI, hT, hN⟩ := h
  refine ⟨inv_handleJoinRoom hI t sid room, ?_, ?_⟩
  · rw [handleJoinRoom_timers]
    exact hT
  · rcases hl : alookup sid st.clients with _ | cd
    · simp only [handleJoinRoom, hl]
      exact hN
    · have hcd : cd.userId ≠ tm0.userId := by
        intro he
        exact absurd he ((findClientEntryByUserId_eq_none.mp hN) (sid, cd) (alookup_mem hl))
      by_cases hv : roomCodeValid room = false
      · simp only [handleJoinRoom, hl, hv, if_true, if_pos]
        exact hN
      · simp only [handleJoinRoom, hl, hv, if_false, if_neg]
        exact noSession_aset hN hcd

theorem armed_handleLeaveRoom {tm0 : GraceTimer} {st : GatewaySt}
    (h : PhaseArmed tm0 st) (t : Nat) (sid : String) :
    PhaseArmed tm0 (handleLeaveRoom st t sid) := by
  obtain ⟨hI, hT, hN⟩ := h
  refine ⟨inv_handleLeaveRoom hI t sid, ?_, ?_⟩
  · rw [handleLeaveRoom_timers]
    exact hT
  · rcases hl : alookup sid st.clients with _ | cd
    · simp only [handleLeaveRoom, hl]
      exact hN
    · have hcd : cd.userId ≠ tm0.userId := by
        intro he
        exact absurd he ((findClientEntryByUserId_eq_none.mp hN) (sid, cd) (alookup_mem hl))
      rcases hr : cd.roomCode with _ | room
      · simp only [handleLeaveRoom, hl, hr]
        exact hN
      · simp only [handleLeaveRoom, hl, hr]
        exact noSession_aset hN hcd

theorem armed_fireTimer_ne {tm0 : GraceTimer} {st : GatewaySt} {tm : GraceTimer}
    (h : PhaseArmed tm0 st) (htm : tm ∈ st.timers) (hne : tm.tid ≠ tm0.tid) :
    PhaseArmed tm0 (fireTimer st tm) := by
  refine ⟨inv_fireTimer h.1 htm, ?_, ?_⟩
  · rw [fireTimer_timers]
    refine List.mem_filter.mpr ⟨h.2.1, ?_⟩
    have hx : tm0.tid ≠ tm.tid := fun he => hne he.symm
    simpa using hx
  · rw [fireTimer_clients]
    exact h.2.2

theorem armed_fireTimer_self {tm0 : GraceTimer} {st : GatewaySt}
    (h : PhaseArmed tm0 st) : PhaseFired tm0 (fireTimer st tm0) := by
  obtain ⟨hI, hT, hN⟩ := h
  refine ⟨inv_fireTimer hI hT, ?_, ?_, ?_⟩
  · intro tm htm
    rw [fireTimer_timers] at htm
    simpa using (List.mem_filter.mp htm).2
  · rw [fireTimer_nextTid]
    exact hI.tidsLt tm0 hT
  · have heq : fireTimer st tm0 =
        { st with
          timers := st.timers.filter (fun x => x.tid ≠ tm0.tid),
          log := st.log ++
            (match tm0.roomCode with
             | some r => [.userLeft tm0.fireAt (some tm0.tid) r tm0.nickname]
             | none => []) ++ [.systemOffline tm0.fireAt tm0.nickname],
          timeouts := aerase tm0.userId st.timeouts } := by
      simp [fireTimer, hN]
    rw [heq]
    dsimp only
    rw [leftEventsTagged_append, leftEventsTagged_append,
        leftEventsTagged_eq_nil (hI.freshTag tm0 hT), leftEventsTagged_offline_nil]
    rcases hr : tm0.roomCode with _ | r
    · simp [leftEventsTagged_nil]
    · rw [leftEventsTagged_left_self]
      simp

theorem armed_fireDue_early {tm0 : GraceTimer} {st : GatewaySt}
    (h : PhaseArmed tm0 st) (tt : Nat) (hlt : tt < tm0.fireAt) :
    PhaseArmed tm0 (fireDue st tt) := by
  refine fireDue_pres tt st ?_ h h.1.tidsND
  intro st2 tm h2 hm2 hfa
  refine armed_fireTimer_ne h2 hm2 ?_
  intro he
  have heq2 : tm = tm0 := List.inj_on_of_nodup_map h2.1.tidsND hm2 h2.2.1 (by rw [he])
  rw [heq2] at hfa
  omega

theorem armedFired_fireDue {tm0 : GraceTimer} {st : GatewaySt}
    (h : PhaseArmed tm0 st ∨ PhaseFired tm0 st) (tt : Nat) :
    PhaseArmed tm0 (fireDue st tt) ∨ PhaseFired tm0 (fireDue st tt) := by
  have hnd : (st.timers.map GraceTimer.tid).Nodup := by
    rcases h with h | h
    · exact h.1.tidsND
    · exact h.1.tidsND
  refine @fireDue_pres (fun s => PhaseArmed tm0 s ∨ PhaseFired tm0 s) tt st ?_ h hnd
  intro st2 tm h2 hm2 _
  rcases h2 with h2 | h2
  · by_cases he : tm.tid = tm0.tid
    · have heq2 : tm = tm0 := List.inj_on_of_nodup_map h2.1.tidsND hm2 h2.2.1 he
      rw [heq2]
      exact Or.inr (armed_fireTimer_self h2)
    · exact Or.inl (armed_fireTimer_ne h2 hm2 he)
  · exact Or.inr (fired_fireTimer h2 hm2)

theorem fired_handleConnection {tm0 : GraceTimer} {st : GatewaySt}
    (h : PhaseFired tm0 st) (t : Nat) (sid uid nick : String) :
    PhaseFired tm0 (handleConnection st t sid uid nick) := by
  refine fired_of_master h (inv_handleConnection h.1 t sid uid nick) ?_
    (le_of_eq (handleConnection_nextTid st t sid uid nick).symm) ?_
  · intro tm htm
    exact Or.inl (handleConnection_timers_sub st t sid uid nick tm htm)
  · obtain ⟨l1, hl1, hg1⟩ := handleConnection_log st t sid uid nick
    refine ⟨l1, hl1, ?_⟩
    intro g hg
    rw [hg1] at hg
    cases hg

theorem fired_handleDisconnect {tm0 : GraceTimer} {st : GatewaySt}
    (h : PhaseFired tm0 st) (t : Nat) (sid : String) :
    PhaseFired tm0 (handleDisconnect st t sid) := by
  refine fired_of_master h (inv_handleDisconnect h.1 t sid) ?_
    (handleDisconnect_nextTid_ge st t sid) ?_
  · intro tm htm
    rcases handleDisconnect_timers st t sid tm htm with hx | hx
    · exact Or.inl hx
    · exact Or.inr (le_of_eq hx.symm)
  · refine ⟨[], by rw [handleDisconnect_log, List.append_nil], ?_⟩
    intro g hg
    simp [leftTags] at hg

theorem fired_handleJoinRoom {tm0 : GraceTimer} {st : GatewaySt}
    (h : PhaseFired tm0 st) (t : Nat) (sid room : String) :
    PhaseFired tm0 (handleJoinRoom st t sid room) := by
  refine fired_of_master h (inv_handleJoinRoom h.1 t sid room) ?_
    (le_of_eq (handleJoinRoom_nextTid st t sid room).symm) ?_
  · intro tm htm
    rw [handleJoinRoom_timers] at htm
    exact Or.inl htm
  · obtain ⟨l1, hl1, hg1⟩ := handleJoinRoom_log st t sid room
    refine ⟨l1, hl1, ?_⟩
    intro g hg
    rw [hg1] at hg
    cases hg

theorem fired_handleLeaveRoom {tm0 : GraceTimer} {st : GatewaySt}
    (h : PhaseFired tm0 st) (t : Nat) (sid : String) :
    PhaseFired tm0 (handleLeaveRoom st t sid) := by
  refine fired_of_master h (inv_handleLeaveRoom h.1 t sid) ?_
    (le_of_eq (handleLeaveRoom_nextTid st t sid).symm) ?_
  · intro tm htm
    rw [handleLeaveRoom_timers] at htm
    exact Or.inl htm
  · obtain ⟨l1, hl1, hg1⟩ := handleLeaveRoom_log st t sid
    refine ⟨l1, hl1, ?_⟩
    intro g hg
    rw [hg1] at hg
    cases hg

theorem armedFired_stepEvent {tm0 : GraceTimer} {st : GatewaySt} {e : InEvent}
    (h : PhaseArmed tm0 st ∨ PhaseFired tm0 st)
    (hcond : validConnectFor tm0.userId e = true → tm0.fireAt ≤ e.time) :
    PhaseArmed tm0 (stepEvent st e) ∨ PhaseFired tm0 (stepEvent st e) := by
  rcases h with h | h
  · by_cases htt : e.time < tm0.fireAt
    · have hD : PhaseArmed tm0 (fireDue st e.time) := armed_fireDue_early h _ htt
      cases e with
      | connect t sid uid nick =>
          left
          refine armed_handleConnection hD t sid uid nick ?_
          rcases hb : validConnectFor tm0.userId (.connect t sid uid nick) with _ | _
          · exact validConnectFor_false hb
          · have := hcond hb
            simp only [InEvent.time] at this htt
            omega
      | disconnect t sid => exact Or.inl (armed_handleDisconnect hD t sid)
      | joinRoom t sid room => exact Or.inl (armed_handleJoinRoom hD t sid room)
      | leaveRoom t sid => exact Or.inl (armed_handleLeaveRoom hD t sid)
    · have hdue : tm0 ∈ st.timers.filter (fun tm => tm.fireAt ≤ e.time) := by
        refine List.mem_filter.mpr ⟨h.2.1, ?_⟩
        simp only [decide_eq_true_eq]
        omega
      have h3 : PhaseFired tm0 (fireDue st e.time) := by
        rcases armedFired_fireDue (Or.inl h) e.time with h2 | h2
        · exfalso
          have hmem := h2.2.1
          rw [fireDue, foldl_fireTimer_timers] at hmem
          have hx := (List.mem_filter.mp hmem).2
          simp only [decide_not, Bool.not_eq_true', decide_eq_false_iff_not] at hx
          exact hx (List.mem_map.mpr ⟨tm0, hdue, rfl⟩)
        · exact h2
      cases e with
      | connect t sid uid nick => exact Or.inr (fired_handleConnection h3 t sid uid nick)
      | disconnect t sid => exact Or.inr (fired_handleDisconnect h3 t sid)
      | joinRoom t sid room => exact Or.inr (fired_handleJoinRoom h3 t sid room)
      | leaveRoom t sid => exact Or.inr (fired_handleLeaveRoom h3 t sid)
  · exact Or.inr (fired_stepEvent h e)

theorem armedFired_processEvents {tm0 : GraceTimer} (q : List InEvent)
    (st : GatewaySt) (h : PhaseArmed tm0 st ∨ PhaseFired tm0 st)
    (hcond : ∀ e ∈ q, validConnectFor tm0.userId e = true → tm0.fireAt ≤ e.time) :
    PhaseArmed tm0 (processEvents st q) ∨ PhaseFired tm0 (processEvents st q) := by
  induction q generalizing st with
  | nil => exact h
  | cons e rest ih =>
      exact ih (stepEvent st e)
        (armedFired_stepEvent h (hcond e (List.mem_cons_self _ _)))
        (fun e2 he2 => hcond e2 (List.mem_cons_of_mem _ he2))

theorem fired_flushTimers {tm0 : GraceTimer} {st : GatewaySt}
    (h : PhaseArmed tm0 st ∨ PhaseFired tm0 st) :
    PhaseFired tm0 (flushTimers st) := by
  have hnd : (st.timers.map GraceTimer.tid).Nodup := by
    rcases h with h | h
    · exact h.1.tidsND
    · exact h.1.tidsND
  have hres : PhaseArmed tm0 (flushTimers st) ∨ PhaseFired tm0 (flushTimers st) := by
    refine @flushTimers_pres (fun s => PhaseArmed tm0 s ∨ PhaseFired tm0 s) st ?_ h hnd
    intro st2 tm h2 hm2
    rcases h2 with h2 | h2
    · by_cases he : tm.tid = tm0.tid
      · have heq2 : tm = tm0 := List.inj_on_of_nodup_map h2.1.tidsND hm2 h2.2.1 he
        rw [heq2]
        exact Or.inr (armed_fireTimer_self h2)
      · exact Or.inl (armed_fireTimer_ne h2 hm2 he)
    · exact Or.inr (fired_fireTimer h2 hm2)
  rcases hres with hres | hres
  · exfalso
    have := hres.2.1
    rw [flushTimers_timers] at this
    cases this
  · exact hres

end TrpgChat

namespace TrpgChat

theorem alookup_eq_of_mem {m : List (String × α)} (hnd : (akeys m).Nodup)
    {p : String × α} (hp : p ∈ m) : alookup p.1 m = some p.2 := by
  induction m with
  | nil => cases hp
  | cons q ps ih =>
      simp only [akeys, List.map_cons, List.nodup_cons] at hnd
      rcases List.mem_cons.mp hp with rfl | hm
      · simp [alookup]
      · rw [alookup]
        have hne : q.1 ≠ p.1 := by
          intro he
          exact hnd.1 (he ▸ List.mem_map.mpr ⟨p, hm, rfl⟩)
        rw [if_neg hne]
        exact ih hnd.2 hm

theorem akeys_aerase_sub {m : List (String × α)} {s k : String}
    (h : k ∈ akeys (aerase s m)) : k ∈ akeys m := by
  simp only [akeys, aerase, List.mem_map] at h ⊢
  obtain ⟨p, hp, hk⟩ := h
  exact ⟨p, (List.mem_filter.mp hp).1, hk⟩

theorem akeys_aset_sub {m : List (String × α)} {s k : String} {v : α}
    (h : k ∈ akeys (aset s v m)) : k ∈ akeys m ∨ k = s := by
  rw [aset, akeys, List.map_append] at h
  rcases List.mem_append.mp h with h | h
  · exact Or.inl (akeys_aerase_sub h)
  · simp only [List.map_cons, List.map_nil, List.mem_singleton] at h
    exact Or.inr h

theorem akeys_mem_of_lookup {m : List (String × α)} {s : String} {v : α}
    (h : alookup s m = some v) : s ∈ akeys m :=
  List.mem_map.mpr ⟨(s, v), alookup_mem h, rfl⟩

theorem connectSids_append (a b : List InEvent) :
    connectSids (a ++ b) = connectSids a ++ connectSids b := by
  simp [connectSids]

theorem connectSids_cons (e : InEvent) (l : List InEvent) :
    connectSids (e :: l) = connectSids [e] ++ connectSids l := by
  cases e <;> simp [connectSids]

theorem processEvents_append (a b : List InEvent) (st : GatewaySt) :
    processEvents st (a ++ b) = processEvents (processEvents st a) b := by
  induction a generalizing st with
  | nil => rfl
  | cons e rest ih => rw [List.cons_append, processEvents, processEvents, ih]

theorem akeys_stepEvent (st : GatewaySt) (e : InEvent) :
    ∀ k ∈ akeys (stepEvent st e).clients, k ∈ akeys st.clients ∨ k ∈ connectSids [e] := by
  intro k hk
  cases e with
  | connect t sid uid nick =>
      have hk2 : k ∈ akeys (handleConnection (fireDue st t) t sid uid nick).clients := hk
      rw [handleConnection_clients, fireDue_clients] at hk2
      by_cases hauth : uid = "" ∨ nick = ""
      · rw [if_pos hauth] at hk2
        exact Or.inl hk2
      · rw [if_neg hauth] at hk2
        rcases hf : findClientEntryByUserId st.clients uid with _ | q <;> rw [hf] at hk2
        · rcases akeys_aset_sub hk2 with h | h
          · exact Or.inl h
          · exact Or.inr (by simp [connectSids, h])
        · rcases akeys_aset_sub hk2 with h | h
          · exact Or.inl (akeys_aerase_sub h)
          · exact Or.inr (by simp [connectSids, h])
  | disconnect t sid =>
      have hk2 : k ∈ akeys (handleDisconnect (fireDue st t) t sid).clients := hk
      rw [handleDisconnect_clients, fireDue_clients] at hk2
      rcases hl : alookup sid st.clients with _ | cd <;> rw [hl] at hk2
      · exact Or.inl hk2
      · exact Or.inl (akeys_aerase_sub hk2)
  | joinRoom t sid room =>
      have hk2 : k ∈ akeys (handleJoinRoom (fireDue st t) t sid room).clients := hk
      refine Or.inl ?_
      rcases hl : alookup sid (fireDue st t).clients with _ | cd
      · simp only [handleJoinRoom, hl] at hk2
        rw [fireDue_clients] at hk2
        exact hk2
      · simp only [handleJoinRoom, hl] at hk2
        by_cases hv : roomCodeValid room = false
        · rw [if_pos hv] at hk2
          dsimp only at hk2
          rw [fireDue_clients] at hk2
          exact hk2
        · rw [if_neg hv] at hk2
          dsimp only at hk2
          rw [fireDue_clients] at hk2
          rw [fireDue_clients] at hl
          rcases akeys_aset_sub hk2 with h | h
          · exact h
          · exact h ▸ akeys_mem_of_lookup hl
  | leaveRoom t sid =>
      have hk2 : k ∈ akeys (handleLeaveRoom (fireDue st t) t sid).clients := hk
      refine Or.inl ?_
      rcases hl : alookup sid (fireDue st t).clients with _ | cd
      · simp only [handleLeaveRoom, hl] at hk2
        rw [fireDue_clients] at hk2
        exact hk2
      · simp only [handleLeaveRoom, hl] at hk2
        rcases hr : cd.roomCode with _ | room
        · rw [hr] at hk2
          dsimp only at hk2
          rw [fireDue_clients] at hk2
          exact hk2
        · rw [hr] at hk2
          dsimp only at hk2
          rw [fireDue_clients] at hk2
          rw [fireDue_clients] at hl
          rcases akeys_aset_sub hk2 with h | h
          · exact h
          · exact h ▸ akeys_mem_of_lookup hl

theorem akeys_processEvents (evs : List InEvent) (st : GatewaySt) :
    ∀ k ∈ akeys (processEvents st evs).clients,
      k ∈ akeys st.clients ∨ k ∈ connectSids evs := by
  induction evs generalizing st with
  | nil => exact fun k hk => Or.inl hk
  | cons e rest ih =>
      intro k hk
      rcases ih (stepEvent st e) k hk with h | h
      · rcases akeys_stepEvent st e k h with h2 | h2
        · exact Or.inl h2
        · refine Or.inr ?_
          rw [connectSids_cons, List.mem_append]
          exact Or.inl h2
      · refine Or.inr ?_
        rw [connectSids_cons, List.mem_append]
        exact Or.inr h

theorem first_valid_split (u : String) :
    ∀ (post : List InEvent), (∃ e ∈ post, validConnectFor u e = true) →
      ∃ p1 e0 p2, post = p1 ++ e0 :: p2 ∧ validConnectFor u e0 = true ∧
        ∀ e ∈ p1, validConnectFor u e = false
  | [], h => absurd h (by simp)
  | e :: rest, h => by
      rcases hv : validConnectFor u e with _ | _
      · have h2 : ∃ e2 ∈ rest, validConnectFor u e2 = true := by
          rcases h with ⟨e2, he2, hv2⟩
          rcases List.mem_cons.mp he2 with rfl | hm
          · rw [hv] at hv2
            cases hv2
          · exact ⟨e2, hm, hv2⟩
        obtain ⟨p1, e0, p2, hs, hv0, hinv⟩ := first_valid_split u rest h2
        refine ⟨e :: p1, e0, p2, by rw [hs, List.cons_append], hv0, ?_⟩
        intro e2 he2
        rcases List.mem_cons.mp he2 with rfl | hm
        · exact hv
        · exact hinv e2 hm
      · exact ⟨[], e, rest, rfl, hv, fun e2 he2 => absurd he2 (List.not_mem_nil e2)⟩

end TrpgChat

namespace TrpgChat

theorem q_fireTimer {d : Nat} {u : String} {st : GatewaySt} {tm : GraceTimer}
    (h : PhaseReconnected d u st) (htm : tm ∈ st.timers) :
    PhaseReconnected d u (fireTimer st tm) := by
  obtain ⟨hI, hlt, hnot, htag, hsess⟩ := h
  have hlog : d ∉ leftTags (fireTimer st tm).log := by
    by_cases htd : tm.tid = d
    · have hs : (findClientEntryByUserId st.clients tm.userId).isSome = true := by
        rw [htag tm htm htd]
        exact hsess ⟨tm, htm, htd⟩
      obtain ⟨q, hq⟩ := Option.isSome_iff_exists.mp hs
      have heq : fireTimer st tm =
          { st with timers := st.timers.filter (fun x => x.tid ≠ tm.tid),
                    timeouts := aerase tm.userId st.timeouts } := by
        simp [fireTimer, hq]
      rw [heq]
      exact hnot
    · obtain ⟨l1, hl1, hg1⟩ := fireTimer_log_cases st tm
      rw [hl1, leftTags_append]
      intro hmem
      rcases List.mem_append.mp hmem with hm | hm
      · exact hnot hm
      · exact htd (hg1 d hm).symm
  refine ⟨inv_fireTimer hI htm, ?_, hlog, ?_, ?_⟩
  · rw [fireTimer_nextTid]
    exact hlt
  · intro tm2 htm2 htd2
    rw [fireTimer_timers] at htm2
    exact htag tm2 (List.mem_filter.mp htm2).1 htd2
  · intro hex
    rw [fireTimer_clients]
    obtain ⟨tm2, htm2, htd2⟩ := hex
    rw [fireTimer_timers] at htm2
    exact hsess ⟨tm2, (List.mem_filter.mp htm2).1, htd2⟩

theorem q_fireDue {d : Nat} {u : String} {st : GatewaySt}
    (h : PhaseReconnected d u st) (tt : Nat) :
    PhaseReconnected d u (fireDue st tt) :=
  @fireDue_pres (fun s => PhaseReconnected d u s) tt st
    (fun _ _ h2 hm2 _ => q_fireTimer h2 hm2) h h.1.tidsND

theorem q_handleDisconnect {d : Nat} {u : String} {st : GatewaySt}
    (h : PhaseReconnected d u st) (t : Nat) (sid : String) :
    PhaseReconnected d u (handleDisconnect st t sid) := by
  obtain ⟨hI, hlt, hnot, htag, hsess⟩ := h
  rcases hl : alookup sid st.clients with _ | cd
  · have heq : handleDisconnect st t sid = st := by simp [handleDisconnect, hl]
    rw [heq]
    exact ⟨hI, hlt, hnot, htag, hsess⟩
  · have heq : handleDisconnect st t sid =
        armTimer (cancelPending { st with clients := aerase sid st.clients } cd.userId) t cd := by
      simp [handleDisconnect, hl]
    have hsub : ∀ tm2 ∈ (cancelPending
        { st with clients := aerase sid st.clients } cd.userId).timers, tm2 ∈ st.timers := by
      intro tm2 htm2
      exact cancelPending_timers_sub { st with clients := aerase sid st.clients } cd.userId tm2 htm2
    refine ⟨inv_handleDisconnect hI t sid,
      lt_of_lt_of_le hlt (handleDisconnect_nextTid_ge st t sid),
      by rw [handleDisconnect_log]; exact hnot, ?_, ?_⟩
    · intro tm2 htm2 htd2
      rw [heq] at htm2
      simp only [armTimer, List.mem_append, List.mem_singleton] at htm2
      rcases htm2 with htm2 | htm2
      · exact htag tm2 (hsub tm2 htm2) htd2
      · exfalso
        rw [htm2] at htd2
        dsimp only at htd2
        rw [cancelPending_nextTid] at htd2
        dsimp only at htd2
        omega
    · intro hex
      obtain ⟨tm2, htm2, htd2⟩ := hex
      rw [heq] at htm2
      simp only [armTimer, List.mem_append, List.mem_singleton] at htm2
      rcases htm2 with htm2 | htm2
      · have htm2' : tm2 ∈ st.timers := hsub tm2 htm2
        have hu2 : tm2.userId = u := htag tm2 htm2' htd2
        by_cases hcu : cd.userId = u
        · exfalso
          have hsync : alookup u st.timeouts = some d :=
            (hI.sync u d).mpr ⟨tm2, htm2', hu2, htd2⟩
          have hcl := @cancelPending_timers_cleared
            { st with clients := aerase sid st.clients } cd.userId d
            (by rw [hcu]; exact hsync) tm2 htm2
          exact hcl htd2
        · have hs := hsess ⟨tm2, htm2', htd2⟩
          obtain ⟨p, hp, hpu⟩ := findClientEntryByUserId_isSome.mp hs
          rw [handleDisconnect_clients, hl]
          refine findClientEntryByUserId_isSome.mpr ⟨p, ?_, hpu⟩
          refine mem_aerase.mpr ⟨hp, ?_⟩
          intro hps
          have hpl := alookup_eq_of_mem hI.keysND hp
          rw [hps, hl] at hpl
          exact hcu (by rw [Option.some.inj hpl]; exact hpu)
      · exfalso
        rw [htm2] at htd2
        dsimp only at htd2
        rw [cancelPending_nextTid] at htd2
        dsimp only at htd2
        omega

theorem q_handleJoinRoom {d : Nat} {u : String} {st : GatewaySt}
    (h : PhaseReconnected d u st) (t : Nat) (sid room : String) :
    PhaseReconnected d u (handleJoinRoom st t sid room) := by
  obtain ⟨hI, hlt, hnot, htag, hsess⟩ := h
  have hlog : d ∉ leftTags (handleJoinRoom st t sid room).log := by
    obtain ⟨l1, hl1, hg1⟩ := handleJoinRoom_log st t sid room
    rw [hl1, leftTags_append, hg1]
    simpa using hnot
  refine ⟨inv_handleJoinRoom hI t sid room,
    by rw [handleJoinRoom_nextTid]; exact hlt, hlog,
    fun tm2 htm2 htd2 => htag tm2 (by rwa [handleJoinRoom_timers] at htm2) htd2, ?_⟩
  intro hex
  obtain ⟨tm2, htm2, htd2⟩ := hex
  rw [handleJoinRoom_timers] at htm2
  have hs := hsess ⟨tm2, htm2, htd2⟩
  obtain ⟨p, hp, hpu⟩ := findClientEntryByUserId_isSome.mp hs
  rcases hl : alookup sid st.clients with _ | cd
  · have heqc : (handleJoinRoom st t sid room).clients = st.clients := by
      simp [handleJoinRoom, hl]
    rw [heqc]
    exact hs
  · by_cases hv : roomCodeValid room = false
    · have heqc : (handleJoinRoom st t sid room).clients = st.clients := by
        simp only [handleJoinRoom, hl]
        rw [if_pos hv]
      rw [heqc]
      exact hs
    · have heqc : (handleJoinRoom st t sid room).clients =
          aset sid { cd with roomCode := some room } st.clients := by
        simp only [handleJoinRoom, hl]
        rw [if_neg hv]
      rw [heqc]
      refine findClientEntryByUserId_isSome.mpr ?_
      by_cases hps : p.1 = sid
      · have hpc : p.2 = cd := by
          have hpl := alookup_eq_of_mem hI.keysND hp
          rw [hps, hl] at hpl
          exact (Option.some.inj hpl).symm
        refine ⟨(sid, { cd with roomCode := some room }), mem_aset.mpr (Or.inr rfl), ?_⟩
        show cd.userId = u
        rw [← hpc]
        exact hpu
      · exact ⟨p, mem_aset.mpr (Or.inl ⟨hp, hps⟩), hpu⟩

theorem q_handleLeaveRoom {d : Nat} {u : String} {st : GatewaySt}
    (h : PhaseReconnected d u st) (t : Nat) (sid : String) :
    PhaseReconnected d u (handleLeaveRoom st t sid) := by
  obtain ⟨hI, hlt, hnot, htag, hsess⟩ := h
  have hlog : d ∉ leftTags (handleLeaveRoom st t sid).log := by
    obtain ⟨l1, hl1, hg1⟩ := handleLeaveRoom_log st t sid
    rw [hl1, leftTags_append, hg1]
    simpa using hnot
  refine ⟨inv_handleLeaveRoom hI t sid,
    by rw [handleLeaveRoom_nextTid]; exact hlt, hlog,
    fun tm2 htm2 htd2 => htag tm2 (by rwa [handleLeaveRoom_timers] at htm2) htd2, ?_⟩
  intro hex
  obtain ⟨tm2, htm2, htd2⟩ := hex
  rw [handleLeaveRoom_timers] at htm2
  have hs := hsess ⟨tm2, htm2, htd2⟩
  obtain ⟨p, hp, hpu⟩ := findClientEntryByUserId_isSome.mp hs
  rcases hl : alookup sid st.clients with _ | cd
  · have heqc : (handleLeaveRoom st t sid).clients = st.clients := by
      simp [handleLeaveRoom, hl]
    rw [heqc]
    exact hs
  · rcases hr : cd.roomCode with _ | room
    · have heqc : (handleLeaveRoom st t sid).clients = st.clients := by
        simp [handleLeaveRoom, hl, hr]
      rw [heqc]
      exact hs
    · have heqc : (handleLeaveRoom st t sid).clients =
          aset sid { cd with roomCode := none } st.clients := by
        simp [handleLeaveRoom, hl, hr]
      rw [heqc]
      refine findClientEntryByUserId_isSome.mpr ?_
      by_cases hps : p.1 = sid
      · have hpc : p.2 = cd := by
          have hpl := alookup_eq_of_mem hI.keysND hp
          rw [hps, hl] at hpl
          exact (Option.some.inj hpl).symm
        refine ⟨(sid, { cd with roomCode := none }), mem_aset.mpr (Or.inr rfl), ?_⟩
        show cd.userId = u
        rw [← hpc]
        exact hpu
      · exact ⟨p, mem_aset.mpr (Or.inl ⟨hp, hps⟩), hpu⟩

theorem q_handleConnection {d : Nat} {u : String} {st : GatewaySt}
    (h : PhaseReconnected d u st) (t : Nat) (sid uid nick : String)
    (hfresh : sid ∉ akeys st.clients) :
    PhaseReconnected d u (handleConnection st t sid uid nick) := by
  obtain ⟨hI, hlt, hnot, htag, hsess⟩ := h
  have hlog : d ∉ leftTags (handleConnection st t sid uid nick).log := by
    obtain ⟨l1, hl1, hg1⟩ := handleConnection_log st t sid uid nick
    rw [hl1, leftTags_append, hg1]
    simpa using hnot
  refine ⟨inv_handleConnection hI t sid uid nick,
    by rw [handleConnection_nextTid]; exact hlt, hlog,
    fun tm2 htm2 htd2 =>
      htag tm2 (handleConnection_timers_sub st t sid uid nick tm2 htm2) htd2, ?_⟩
  intro hex
  obtain ⟨tm2, htm2, htd2⟩ := hex
  have htm2' : tm2 ∈ st.timers := handleConnection_timers_sub st t sid uid nick tm2 htm2
  have hs := hsess ⟨tm2, htm2', htd2⟩
  obtain ⟨p, hp, hpu⟩ := findClientEntryByUserId_isSome.mp hs
  have hps : p.1 ≠ sid := by
    intro he
    exact hfresh (he ▸ List.mem_map.mpr ⟨p, hp, rfl⟩)
  rw [handleConnection_clients]
  by_cases hauth : uid = "" ∨ nick = ""
  · rw [if_pos hauth]
    exact hs
  · rw [if_neg hauth]
    rcases hf : findClientEntryByUserId st.clients uid with _ | q
    · refine findClientEntryByUserId_isSome.mpr ?_
      by_cases hup : uid = u
      · exact ⟨(sid, ⟨uid, nick, none⟩), mem_aset.mpr (Or.inr rfl), hup⟩
      · exact ⟨p, mem_aset.mpr (Or.inl ⟨hp, hps⟩), hpu⟩
    · refine findClientEntryByUserId_isSome.mpr ?_
      by_cases hup : uid = u
      · exact ⟨(sid, ⟨uid, nick, q.2.roomCode⟩), mem_aset.mpr (Or.inr rfl), hup⟩
      · obtain ⟨hqm, hqu⟩ := findClientEntryByUserId_some hf
        have hpq : p.1 ≠ q.1 := by
          intro he
          have hpl := alookup_eq_of_mem hI.keysND hp
          have hql := alookup_eq_of_mem hI.keysND hqm
          rw [he, hql] at hpl
          have : p.2 = q.2 := (Option.some.inj hpl).symm
          exact hup (by rw [← hqu, ← this, hpu])
        exact ⟨p, mem_aset.mpr (Or.inl ⟨mem_aerase.mpr ⟨hp, hpq⟩, hps⟩), hpu⟩

theorem armed_to_q {tm0 : GraceTimer} {st : GatewaySt} (h : PhaseArmed tm0 st)
    {t : Nat} {sid uid nick : String}
    (hv : validConnectFor tm0.userId (.connect t sid uid nick) = true) :
    PhaseReconnected tm0.tid tm0.userId (handleConnection st t sid uid nick) := by
  obtain ⟨hI, hT, hN⟩ := h
  have hv' : (uid = tm0.userId ∧ ¬uid = "") ∧ ¬nick = "" := by
    simpa [validConnectFor] using hv
  have hauth : ¬(uid = "" ∨ nick = "") := by
    rintro (hc | hc)
    · exact hv'.1.2 hc
    · exact hv'.2 hc
  have hfind : findClientEntryByUserId st.clients uid = none := by
    rw [hv'.1.1]
    exact hN
  have hlog : tm0.tid ∉ leftTags (handleConnection st t sid uid nick).log := by
    obtain ⟨l1, hl1, hg1⟩ := handleConnection_log st t sid uid nick
    rw [hl1, leftTags_append, hg1]
    simpa using hI.freshTag tm0 hT
  refine ⟨inv_handleConnection hI t sid uid nick,
    by rw [handleConnection_nextTid]; exact hI.tidsLt tm0 hT, hlog, ?_, ?_⟩
  · intro tm2 htm2 htd2
    have htm2' : tm2 ∈ st.timers := handleConnection_timers_sub st t sid uid nick tm2 htm2
    have heq2 : tm2 = tm0 := List.inj_on_of_nodup_map hI.tidsND htm2' hT htd2
    rw [heq2]
  · intro _
    rw [handleConnection_clients, if_neg hauth, hfind]
    refine findClientEntryByUserId_isSome.mpr ?_
    exact ⟨(sid, ⟨uid, nick, none⟩), mem_aset.mpr (Or.inr rfl), hv'.1.1⟩

theorem q_stepEvent {d : Nat} {u : String} {st : GatewaySt} {e : InEvent}
    (h : PhaseReconnected d u st)
    (hfr : ∀ s ∈ connectSids [e], s ∉ akeys st.clients) :
    PhaseReconnected d u (stepEvent st e) := by
  cases e with
  | connect t sid uid nick =>
      refine q_handleConnection (q_fireDue h t) t sid uid nick ?_
      rw [fireDue_clients]
      exact hfr sid (by simp [connectSids])
  | disconnect t sid => exact q_handleDisconnect (q_fireDue h t) t sid
  | joinRoom t sid room => exact q_handleJoinRoom (q_fireDue h t) t sid room
  | leaveRoom t sid => exact q_handleLeaveRoom (q_fireDue h t) t sid

theorem q_processEvents {d : Nat} {u : String} (q : List InEvent) (st : GatewaySt)
    (h : PhaseReconnected d u st) (hnd : (connectSids q).Nodup)
    (hfr : ∀ s ∈ connectSids q, s ∉ akeys st.clients) :
    PhaseReconnected d u (processEvents st q) := by
  induction q generalizing st with
  | nil => exact h
  | cons e rest ih =>
      rw [connectSids_cons] at hnd hfr
      have hnd2 := List.nodup_append.mp hnd
      refine ih (stepEvent st e)
        (q_stepEvent h (fun s hs => hfr s (List.mem_append.mpr (Or.inl hs)))) hnd2.2.1 ?_
      intro s hs hmem
      rcases akeys_stepEvent st e s hmem with h2 | h2
      · exact hfr s (List.mem_append.mpr (Or.inr hs)) h2
      · exact hnd2.2.2 h2 hs

theorem q_flushTimers {d : Nat} {u : String} {st : GatewaySt}
    (h : PhaseReconnected d u st) : PhaseReconnected d u (flushTimers st) :=
  @flushTimers_pres (fun s => PhaseReconnected d u s) st
    (fun _ _ h2 hm2 => q_fireTimer h2 hm2) h h.1.tidsND

end TrpgChat

namespace TrpgChat

theorem armed_establish {st : GatewaySt} (hI : Inv st) {sid : String} {cd : ClientData}
    (hl : alookup sid st.clients = some cd) (t : Nat) :
    PhaseArmed ⟨st.nextTid, cd.userId, cd.nickname, cd.roomCode, t + GRACE⟩
      (handleDisconnect st t sid) := by
  have heq : handleDisconnect st t sid =
      armTimer (cancelPending { st with clients := aerase sid st.clients } cd.userId) t cd := by
    simp [handleDisconnect, hl]
  refine ⟨inv_handleDisconnect hI t sid, ?_, ?_⟩
  · rw [heq]
    simp only [armTimer, List.mem_append, List.mem_singleton]
    right
    rw [cancelPending_nextTid]
  · rw [handleDisconnect_clients, hl]
    rw [findClientEntryByUserId_eq_none]
    intro p hp hpu
    have hpm := mem_aerase.mp hp
    have hpe : p = (sid, cd) := eq_of_same_uid hI.uidsND hpm.1 (alookup_mem hl) hpu
    exact hpm.2 (by rw [hpe])

theorem armed_stepEvent_safe {tm0 : GraceTimer} {st : GatewaySt} {e : InEvent}
    (h : PhaseArmed tm0 st) (hv : validConnectFor tm0.userId e = false)
    (ht : e.time < tm0.fireAt) : PhaseArmed tm0 (stepEvent st e) := by
  have hD := armed_fireDue_early h e.time ht
  cases e with
  | connect t sid uid nick =>
      exact armed_handleConnection hD t sid uid nick (validConnectFor_false hv)
  | disconnect t sid => exact armed_handleDisconnect hD t sid
  | joinRoom t sid room => exact armed_handleJoinRoom hD t sid room
  | leaveRoom t sid => exact armed_handleLeaveRoom hD t sid

theorem armed_processEvents_safe {tm0 : GraceTimer} (q : List InEvent) (st : GatewaySt)
    (h : PhaseArmed tm0 st)
    (hq : ∀ e ∈ q, validConnectFor tm0.userId e = false ∧ e.time < tm0.fireAt) :
    PhaseArmed tm0 (processEvents st q) := by
  induction q generalizing st with
  | nil => exact h
  | cons e rest ih =>
      exact ih (stepEvent st e)
        (armed_stepEvent_safe h (hq e (List.mem_cons_self _ _)).1
          (hq e (List.mem_cons_self _ _)).2)
        (fun e2 he2 => hq e2 (List.mem_cons_of_mem _ he2))

theorem validConnectFor_connect_shape {u : String} {e : InEvent}
    (h : validConnectFor u e = true) :
    ∃ t sid uid nick, e = .connect t sid uid nick := by
  cases e with
  | connect t sid uid nick => exact ⟨t, sid, uid, nick, rfl⟩
  | disconnect t sid => simp [validConnectFor] at h
  | joinRoom t sid room => simp [validConnectFor] at h
  | leaveRoom t sid => simp [validConnectFor] at h

end TrpgChat

namespace TrpgChat

theorem c1_case_b {tm0 : GraceTimer} {st : GatewaySt} (post : List InEvent)
    (h : PhaseArmed tm0 st)
    (hcond : ∀ e ∈ post, validConnectFor tm0.userId e = true → tm0.fireAt ≤ e.time) :
    leftEventsTagged tm0.tid (flushTimers (processEvents st post)).log =
      (match tm0.roomCode with
       | some r => [OutEvent.userLeft tm0.fireAt (some tm0.tid) r tm0.nickname]
       | none => []) :=
  (fired_flushTimers (armedFired_processEvents post st (Or.inl h) hcond)).2.2.2

theorem c1_case_a {tm0 : GraceTimer} {st : GatewaySt} (post : List InEvent)
    (h : PhaseArmed tm0 st)
    (hpost : post.Pairwise (fun a b => a.time ≤ b.time))
    (hndp : (connectSids post).Nodup)
    (hfrp : ∀ s ∈ connectSids post, s ∉ akeys st.clients)
    (hex : ∃ e ∈ post, validConnectFor tm0.userId e = true ∧ e.time < tm0.fireAt) :
    tm0.tid ∉ leftTags (flushTimers (processEvents st post)).log := by
  obtain ⟨ew, hew, hvw, htw⟩ := hex
  obtain ⟨p1, e0, p2, hsplit, hv0, hinv1⟩ := first_valid_split tm0.userId post ⟨ew, hew, hvw⟩
  subst hsplit
  have hpa := List.pairwise_append.mp hpost
  have he0t : e0.time < tm0.fireAt := by
    rcases List.mem_append.mp hew with hm | hm
    · rw [hinv1 ew hm] at hvw
      simp at hvw
    · rcases List.mem_cons.mp hm with rfl | hm2
      · exact htw
      · have hle := (List.pairwise_cons.mp hpa.2.1).1 ew hm2
        omega
  have hp1t : ∀ e2 ∈ p1, e2.time < tm0.fireAt := by
    intro e2 he2
    have hle := hpa.2.2 e2 he2 e0 (List.mem_cons_self _ _)
    omega
  have hA1 : PhaseArmed tm0 (processEvents st p1) :=
    armed_processEvents_safe p1 st h (fun e2 he2 => ⟨hinv1 e2 he2, hp1t e2 he2⟩)
  obtain ⟨t1, sid1, uid1, nick1, he0⟩ := validConnectFor_connect_shape hv0
  subst he0
  have hAf : PhaseArmed tm0 (fireDue (processEvents st p1) t1) :=
    armed_fireDue_early hA1 t1 he0t
  have hQ0 : PhaseReconnected tm0.tid tm0.userId
      (stepEvent (processEvents st p1) (.connect t1 sid1 uid1 nick1)) :=
    armed_to_q hAf hv0
  have hconc : connectSids (p1 ++ InEvent.connect t1 sid1 uid1 nick1 :: p2) =
      connectSids (p1 ++ [InEvent.connect t1 sid1 uid1 nick1]) ++ connectSids p2 := by
    rw [show p1 ++ InEvent.connect t1 sid1 uid1 nick1 :: p2 =
        (p1 ++ [InEvent.connect t1 sid1 uid1 nick1]) ++ p2 by simp, connectSids_append]
  rw [hconc] at hndp hfrp
  have hnd2 := List.nodup_append.mp hndp
  have hfr2 : ∀ s ∈ connectSids p2,
      s ∉ akeys (stepEvent (processEvents st p1)
        (InEvent.connect t1 sid1 uid1 nick1)).clients := by
    intro s hs hmem
    have hmem2 : s ∈ akeys (processEvents st
        (p1 ++ [InEvent.connect t1 sid1 uid1 nick1])).clients := by
      rw [processEvents_append]
      exact hmem
    rcases akeys_processEvents (p1 ++ [InEvent.connect t1 sid1 uid1 nick1]) st s hmem2 with
      h2 | h2
    · exact hfrp s (List.mem_append.mpr (Or.inr hs)) h2
    · exact hnd2.2.2 h2 hs
  have hQf : PhaseReconnected tm0.tid tm0.userId
      (processEvents (stepEvent (processEvents st p1)
        (InEvent.connect t1 sid1 uid1 nick1)) p2) :=
    q_processEvents p2 _ hQ0 hnd2.2.1 hfr2
  have hQff := q_flushTimers hQf
  have hchain : processEvents st (p1 ++ InEvent.connect t1 sid1 uid1 nick1 :: p2) =
      processEvents (stepEvent (processEvents st p1)
        (InEvent.connect t1 sid1 uid1 nick1)) p2 := by
    rw [processEvents_append]
    simp only [processEvents]
  rw [hchain]
  exact hQff.2.2.1

end TrpgChat

/-- C1: for every disconnect of a user with a live session (the `clients`
entry for the disconnecting socket), the grace timer armed by that
disconnect produces, among the events attributable to it (the tagged
`user_left`s carrying its fresh timer tag): nothing at all if any valid
connect handshake for that `userId` arrives strictly before the
15-second deadline, and exactly one `user_left` — stamped at
`disconnectTime + RECONNECT_GRACE_PERIOD_MS`, to the last known room,
none when the user was in no room — if every valid reconnect arrives at
or after the deadline.  The schedule is time-sorted and each connect
uses a fresh socket id. -/
theorem c1_grace_period (pre post : List TrpgChat.InEvent) (t : Nat) (sid : String)
    (cd : TrpgChat.ClientData)
    (hsort : (pre ++ TrpgChat.InEvent.disconnect t sid :: post).Pairwise
      (fun a b => a.time ≤ b.time))
    (hfresh : (TrpgChat.connectSids
      (pre ++ TrpgChat.InEvent.disconnect t sid :: post)).Nodup)
    (hlive : TrpgChat.alookup sid
      (TrpgChat.processEvents TrpgChat.initSt pre).clients = some cd) :
    ((∃ e ∈ post, TrpgChat.validConnectFor cd.userId e = true ∧
        e.time < t + TrpgChat.GRACE) →
      TrpgChat.leftEventsTagged (TrpgChat.processEvents TrpgChat.initSt pre).nextTid
        (TrpgChat.runGateway (pre ++ TrpgChat.InEvent.disconnect t sid :: post)).log = []) ∧
    ((∀ e ∈ post, TrpgChat.validConnectFor cd.userId e = true →
        t + TrpgChat.GRACE ≤ e.time) →
      TrpgChat.leftEventsTagged (TrpgChat.processEvents TrpgChat.initSt pre).nextTid
        (TrpgChat.runGateway (pre ++ TrpgChat.InEvent.disconnect t sid :: post)).log =
        (match cd.roomCode with
         | some r => [TrpgChat.OutEvent.userLeft (t + TrpgChat.GRACE)
             (some (TrpgChat.processEvents TrpgChat.initSt pre).nextTid) r cd.nickname]
         | none => [])) := by
  have hI0 : TrpgChat.Inv (TrpgChat.processEvents TrpgChat.initSt pre) :=
    TrpgChat.inv_processEvents TrpgChat.inv_initSt pre
  have hArmed : TrpgChat.PhaseArmed
      ⟨(TrpgChat.processEvents TrpgChat.initSt pre).nextTid, cd.userId, cd.nickname,
        cd.roomCode, t + TrpgChat.GRACE⟩
      (TrpgChat.stepEvent (TrpgChat.processEvents TrpgChat.initSt pre)
        (TrpgChat.InEvent.disconnect t sid)) := by
    have hIf := TrpgChat.inv_fireDue hI0 t
    have hlf : TrpgChat.alookup sid
        (TrpgChat.fireDue (TrpgChat.processEvents TrpgChat.initSt pre) t).clients =
          some cd := by
      rw [TrpgChat.fireDue_clients]
      exact hlive
    have h1 := TrpgChat.armed_establish hIf hlf t
    rw [TrpgChat.fireDue_nextTid] at h1
    exact h1
  have hrun : TrpgChat.runGateway (pre ++ TrpgChat.InEvent.disconnect t sid :: post) =
      TrpgChat.flushTimers (TrpgChat.processEvents
        (TrpgChat.stepEvent (TrpgChat.processEvents TrpgChat.initSt pre)
          (TrpgChat.InEvent.disconnect t sid)) post) := by
    rw [TrpgChat.runGateway, TrpgChat.processEvents_append]
    simp only [TrpgChat.processEvents]
  have hcs : TrpgChat.connectSids (pre ++ TrpgChat.InEvent.disconnect t sid :: post) =
      TrpgChat.connectSids pre ++ TrpgChat.connectSids post := by
    rw [TrpgChat.connectSids_append, TrpgChat.connectSids_cons]
    simp [TrpgChat.connectSids]
  rw [hcs] at hfresh
  have hfnd := List.nodup_append.mp hfresh
  constructor
  · intro hex
    rw [hrun]
    refine TrpgChat.leftEventsTagged_eq_nil ?_
    refine TrpgChat.c1_case_a post hArmed ?_ hfnd.2.1 ?_ hex
    · exact (hsort.sublist (List.sublist_append_right pre _)).of_cons
    · intro s hs hmem
      have hmem2 : s ∈ TrpgChat.akeys (TrpgChat.processEvents TrpgChat.initSt
          (pre ++ [TrpgChat.InEvent.disconnect t sid])).clients := by
        rw [TrpgChat.processEvents_append]
        exact hmem
      rcases TrpgChat.akeys_processEvents (pre ++ [TrpgChat.InEvent.disconnect t sid])
        TrpgChat.initSt s hmem2 with h2 | h2
      · simp [TrpgChat.initSt, TrpgChat.akeys] at h2
      · rw [TrpgChat.connectSids_append] at h2
        rcases List.mem_append.mp h2 with h3 | h3
        · exact hfnd.2.2 h3 hs
        · simp [TrpgChat.connectSids] at h3
  · intro hcond
    rw [hrun]
    exact TrpgChat.c1_case_b post hArmed hcond

/-- Witness for C1: user `u1` connects on socket `s1`, joins `room1`,
disconnects at `t = 2` and never returns; the timer tagged `0` armed by
that disconnect emits exactly one `user_left` to `room1` at
`2 + 15000`. -/
theorem c1_grace_period_witness :
    TrpgChat.alookup "s1"
        (TrpgChat.processEvents TrpgChat.initSt
          [TrpgChat.InEvent.connect 0 "s1" "u1" "alice",
           TrpgChat.InEvent.joinRoom 1 "s1" "room1"]).clients =
      some ⟨"u1", "alice", some "room1"⟩ ∧
    TrpgChat.leftEventsTagged 0
        (TrpgChat.runGateway
          [TrpgChat.InEvent.connect 0 "s1" "u1" "alice",
           TrpgChat.InEvent.joinRoom 1 "s1" "room1",
           TrpgChat.InEvent.disconnect 2 "s1"]).log =
      [TrpgChat.OutEvent.userLeft 15002 (some 0) "room1" "alice"] := by
  have h := c1_grace_period
    [TrpgChat.InEvent.connect 0 "s1" "u1" "alice",
     TrpgChat.InEvent.joinRoom 1 "s1" "room1"]
    [] 2 "s1" ⟨"u1", "alice", some "room1"⟩ (by decide) (by decide) (by decide)
  refine ⟨by decide, ?_⟩
  have h2 := h.2 (by intro e he; cases he)
  exact h2
